import Mathlib

/-!
# excel2csv: a shallow embedding of `main.go`

The program converts one sheet of a workbook to CSV in a single pass.
`main` is embedded as a pure function from an environment `Env`
(command line, and the results the workbook reader, the file system and
the CSV writer give) to the trace of observable events and the way the
process ends.

Conventions.
* Go `int` values (`rowCount`, `columnCount`, lengths) are `Nat`; the
  `-sheet-index` flag is an `Int`.  No arithmetic in `main` can leave the
  64-bit range for a sheet that fits in memory, so no wrap-around is modelled.
* Go strings are `String`; the path helpers only inspect the ASCII bytes
  `/` and `.`, so working on characters agrees with working on bytes.
* `log.Fatalf` prints its message and calls `os.Exit(1)`: the process
  ends at once and deferred calls do not run.  A `return` from `main`
  runs the deferred calls, last registered first.
-/

namespace Excel2csv

/-! ## Constants -/

/-- The constant `progressReportInterval` (main.go, line 18). -/
def progressReportInterval : Nat := 1000

/-! ## Library helpers used by the output path resolution -/

/-- The Unix `os.IsPathSeparator`. -/
def isPathSeparator (c : Char) : Bool := c == '/'

/-- First loop of `filepath.Base`: strip trailing separators.  The
argument is the path reversed, so the loop drops from the front. -/
def stripTrailing : List Char → List Char
  | [] => []
  | c :: rest => if isPathSeparator c then stripTrailing rest else c :: rest

/-- Second loop of `filepath.Base`: walk back from the end until a
separator is found and keep what was walked over (`path[i+1:]`).  The
first argument is the path reversed, the second the part walked over. -/
def lastElement : List Char → List Char → List Char
  | [], acc => acc
  | c :: rest, acc => if isPathSeparator c then acc else lastElement rest (c :: acc)

/-- The function `filepath.Base` on the characters of a path (Unix, no volume name). -/
def baseChars (path : List Char) : List Char :=
  if path = [] then ['.']
  else
    let p := lastElement (stripTrailing path.reverse) []
    if p = [] then ['/'] else p

/-- Loop of `filepath.Ext`: walk back from the end while no separator is
met; at the first dot return `path[i:]`.  The first argument is the path
reversed, the second the part walked over. -/
def extLoop : List Char → List Char → List Char
  | [], _ => []
  | c :: rest, acc =>
    if isPathSeparator c then []
    else if c = '.' then c :: acc
    else extLoop rest (c :: acc)

/-- The function `filepath.Ext` on the characters of a path. -/
def extChars (path : List Char) : List Char := extLoop path.reverse []

/-- The function `strings.TrimSuffix` on characters: `s` without the
trailing `suffix` when it has it, `s` unchanged otherwise. -/
def trimSuffixChars (s suffix : List Char) : List Char :=
  if suffix.isSuffixOf s then s.take (s.length - suffix.length) else s

/-- Go `filepath.Base`. -/
def filepathBase (path : String) : String := String.mk (baseChars path.data)

/-- Go `filepath.Ext`. -/
def filepathExt (path : String) : String := String.mk (extChars path.data)

/-- Go `strings.TrimSuffix`. -/
def stringsTrimSuffix (s suffix : String) : String :=
  String.mk (trimSuffixChars s.data suffix.data)

/-! ## Output path resolution (main.go, lines 36-45) -/

/-- The value of `actualOutputFile` after lines 37-45, from the `-o`
flag and the positional argument. -/
def actualOutputFile (outputFile inputFile : String) : String :=
  if outputFile = "" ∧ inputFile ≠ "-" then
    let base := filepathBase inputFile
    stringsTrimSuffix base (filepathExt base) ++ ".csv"
  else if outputFile = "" ∧ inputFile = "-" then
    "-"
  else
    outputFile

/-- The reading of the specification: the input path itself with its
extension replaced by `.csv`. -/
def specReplaceExt (inputFile : String) : String :=
  stringsTrimSuffix inputFile (filepathExt inputFile) ++ ".csv"

/-! ## Data model -/

/-- What one step of the row iterator yields: `rows.Columns()` returns
the cells of the row, or an error. -/
inductive RowRead where
  | ok (cols : List String)
  | err
  deriving DecidableEq, Repr

/-- An opened workbook: the sheet list (`GetSheetList`), the row stream
`Rows` gives for a sheet name (`none` when `Rows` returns an error), and
whether `Close` returns an error. -/
structure Workbook where
  sheetList : List String
  rows : String → Option (List RowRead)
  closeFails : Bool

/-- Everything `main` receives from outside.
* `args`: the positional arguments (`flag.Args()`);
* `outputFile`, `sheetIndex`: the flags `-o` and `-sheet-index`;
* `openInput`: the result of `excelize.OpenReader` or `excelize.OpenFile`;
* `createFails`: whether `os.Create` returns an error;
* `writeFails k`: whether the underlying stream fails during the `k`-th
  call (from 0) of `csvWriter.Write`; the writer buffers 4096 bytes, so
  the stream is only reached in a call whose record does not fit what is
  left of the buffer;
* `flushFails k`: the same for the `k`-th call of `csvWriter.Flush`;
* `outputCloseFails`, `rowsCloseFails`: whether closing the output file
  and the row iterator return an error. -/
structure Env where
  args : List String
  outputFile : String
  sheetIndex : Int
  openInput : Option Workbook
  createFails : Bool
  writeFails : Nat → Bool
  flushFails : Nat → Bool
  outputCloseFails : Bool
  rowsCloseFails : Bool

/-- Observable events of a run, in program order. -/
inductive Event where
  /-- Lines 30-31: usage text. -/
  | usage
  /-- Line 52. -/
  | readingStdin
  /-- Line 53 or 55 succeeded: the workbook handle is acquired. -/
  | openWorkbook
  /-- Line 59. -/
  | fatalOpen
  /-- Line 72 or 75 succeeded: the output stream for this path is acquired. -/
  | openOutput (path : String)
  /-- Line 77. -/
  | fatalCreate (path : String)
  /-- Line 97: the message names the index, the sheet count and the last valid index. -/
  | fatalSheetIndex (index : Int) (count : Nat) (last : Int)
  /-- Line 101 succeeded: the row iterator of this sheet is acquired. -/
  | openRows (sheet : String)
  /-- Line 103. -/
  | fatalRows (sheet : String)
  /-- Line 114. -/
  | converting (sheet : String) (index : Int) (input output : String)
  /-- A call of `rows.Next()` and its result. -/
  | next (hasRow : Bool)
  /-- Line 124. -/
  | fatalHeaderRead
  /-- A call of `csvWriter.Write` with this record. -/
  | write (record : List String)
  /-- Line 128. -/
  | fatalHeaderWrite
  /-- Line 132. -/
  | warnEmpty (sheet : String)
  /-- Line 140. -/
  | logReadError (rowNumber : Nat)
  /-- Line 150. -/
  | warnTruncate (rowNumber len columnCount : Nat)
  /-- Line 155. -/
  | logWriteError (rowNumber : Nat)
  /-- Line 161. -/
  | progress (n : Nat)
  /-- A call of `csvWriter.Flush`. -/
  | flush
  /-- Line 166: `rows.Close()`. -/
  | closeRows
  /-- Line 167. -/
  | logCloseRowsError
  /-- Line 172. -/
  | fatalWrite
  /-- Line 175. -/
  | complete (n : Nat)
  /-- Line 87: `closer.Close()` on the output file. -/
  | closeOutput
  /-- Line 88. -/
  | logCloseOutputError
  /-- Line 62: `xlsxFile.Close()`. -/
  | closeWorkbook
  /-- Line 63. -/
  | logCloseWorkbookError
  deriving DecidableEq, Repr

/-- How the process ends: `main` returns, `os.Exit(1)` through
`log.Fatalf`, or a run-time panic. -/
inductive Exit where
  | returned
  | fatal
  | panic
  deriving DecidableEq, Repr

/-- A run: its events and its end. -/
structure Run where
  trace : List Event
  exit : Exit
  deriving DecidableEq, Repr

/-! ## The CSV writer -/

/-- State of `csvWriter`: the sticky error of its buffered writer and
the numbers of `Write` and `Flush` calls made. -/
structure Writer where
  failed : Bool
  writes : Nat
  flushes : Nat
  deriving DecidableEq, Repr

/-- The writer `csv.NewWriter` returns. -/
def newWriter : Writer := ⟨false, 0, 0⟩

/-- The call `csvWriter.Write`: it returns an error when the buffered
writer already holds one or the stream fails now; the error sticks. -/
def csvWrite (env : Env) (w : Writer) : Writer × Bool :=
  let e := w.failed || env.writeFails w.writes
  (⟨e, w.writes + 1, w.flushes⟩, e)

/-- The call `csvWriter.Flush`. -/
def csvFlush (env : Env) (w : Writer) : Writer :=
  ⟨w.failed || env.flushFails w.flushes, w.writes, w.flushes + 1⟩

/-- The call `csvWriter.Error`: any error of an earlier `Write` or `Flush`. -/
def csvError (w : Writer) : Bool := w.failed

/-! ## Row normalization and the row loop (main.go, lines 137-164) -/

/-- Go `make([]string, n)`: `n` empty strings. -/
def makeStrings (n : Nat) : List String := List.replicate n ""

/-- Go `copy(dst, src)`: the first `min(len(dst), len(src))` elements of
`dst` are overwritten by those of `src`. -/
def copy (dst src : List String) : List String :=
  src.take dst.length ++ dst.drop src.length

/-- Lines 144-152: the row handed to the writer and the warning logged,
for a row read while the counter is `rowCount`. -/
def normalizeRow (columnCount rowCount : Nat) (row : List String) :
    List String × List Event :=
  if row.length < columnCount then
    (copy (makeStrings columnCount) row, [])
  else if row.length > columnCount then
    (row.take columnCount, [Event.warnTruncate (rowCount + 1) row.length columnCount])
  else
    (row, [])

/-- Variables that live across iterations of the row loop. -/
structure LoopState where
  writer : Writer
  rowCount : Nat
  deriving DecidableEq, Repr

/-- One iteration of the loop body, lines 138-163, after `rows.Next()`
returned true. -/
def processRow (env : Env) (columnCount : Nat) (st : LoopState) :
    RowRead → LoopState × List Event
  | RowRead.err => (st, [Event.logReadError (st.rowCount + 1)])
  | RowRead.ok row =>
    let n := normalizeRow columnCount st.rowCount row
    let r := csvWrite env st.writer
    let wlog := if r.2 then [Event.logWriteError (st.rowCount + 1)] else []
    let rowCount := st.rowCount + 1
    if rowCount % progressReportInterval = 0 then
      (⟨csvFlush env r.1, rowCount⟩,
        n.2 ++ [Event.write n.1] ++ wlog ++ [Event.progress rowCount, Event.flush])
    else
      (⟨r.1, rowCount⟩, n.2 ++ [Event.write n.1] ++ wlog)

/-- The loop `for rows.Next()`, lines 137-164, over the rows the
iterator still holds. -/
def processRows (env : Env) (columnCount : Nat) :
    LoopState → List RowRead → LoopState × List Event
  | st, [] => (st, [Event.next false])
  | st, r :: rest =>
    let s := processRow env columnCount st r
    let t := processRows env columnCount s.1 rest
    (t.1, Event.next true :: s.2 ++ t.2)

/-! ## The run -/

/-- Lines 106-175 of `main`, once the row iterator of `sheetName` is
open: the header, the row loop and the finalization.  `rows` is what the
iterator holds. -/
def convertRows (env : Env) (sheetName inputFile out : String) (rows : List RowRead) : Run :=
  let pre := [Event.openRows sheetName,
    Event.converting sheetName env.sheetIndex inputFile out]
  match rows with
  | [] => ⟨pre ++ [Event.next false, Event.warnEmpty sheetName], Exit.returned⟩
  | RowRead.err :: _ => ⟨pre ++ [Event.next true, Event.fatalHeaderRead], Exit.fatal⟩
  | RowRead.ok header :: rest =>
    let columnCount := header.length
    let r := csvWrite env newWriter
    if r.2 then
      ⟨pre ++ [Event.next true, Event.write header, Event.fatalHeaderWrite], Exit.fatal⟩
    else
      let l := processRows env columnCount ⟨r.1, 1⟩ rest
      let closing :=
        Event.closeRows :: (if env.rowsCloseFails then [Event.logCloseRowsError] else [])
      let body := pre ++ [Event.next true, Event.write header] ++ l.2 ++ closing
      if csvError l.1.writer then
        ⟨body ++ [Event.fatalWrite], Exit.fatal⟩
      else
        ⟨body ++ [Event.complete l.1.rowCount], Exit.returned⟩

/-- Sections 4 and 5 of `main` (lines 93-175): sheet selection, then
`convertRows`.  Deferred calls are not part of it.  Indexing the sheet
list out of range would panic. -/
def convert (env : Env) (wb : Workbook) (inputFile out : String) : Run :=
  let sheetList := wb.sheetList
  if env.sheetIndex < 0 ∨ env.sheetIndex ≥ sheetList.length then
    ⟨[Event.fatalSheetIndex env.sheetIndex sheetList.length (sheetList.length - 1)],
      Exit.fatal⟩
  else
    match sheetList[env.sheetIndex.toNat]? with
    | none => ⟨[], Exit.panic⟩
    | some sheetName =>
      match wb.rows sheetName with
      | none => ⟨[Event.fatalRows sheetName], Exit.fatal⟩
      | some rows => convertRows env sheetName inputFile out rows

/-- The deferred function of lines 82-91: flush, and close the output
when it is not standard output. -/
def deferredOutput (env : Env) (out : String) : List Event :=
  Event.flush ::
    (if out = "-" then []
     else Event.closeOutput :: (if env.outputCloseFails then [Event.logCloseOutputError] else []))

/-- The deferred function of lines 61-65: close the workbook. -/
def deferredWorkbook (wb : Workbook) : List Event :=
  Event.closeWorkbook :: (if wb.closeFails then [Event.logCloseWorkbookError] else [])

/-- Go `defer`: the deferred events follow the body when the body
returns (or panics); after `os.Exit` they do not happen. -/
def withDefer (deferred : List Event) (body : Run) : Run :=
  match body.exit with
  | Exit.fatal => body
  | _ => ⟨body.trace ++ deferred, body.exit⟩

/-- Lines 51-52: the notice printed when the input is standard input. -/
def opening (inputFile : String) : List Event :=
  if inputFile = "-" then [Event.readingStdin] else []

/-- Section 3 of `main` (lines 67-91) around the rest of the run: create
the output (standard output cannot fail), register the deferred flush
and close, run the body. -/
def withOutput (env : Env) (out : String) (body : Run) : Run :=
  if out ≠ "-" ∧ env.createFails then
    ⟨[Event.fatalCreate out], Exit.fatal⟩
  else
    let r := withDefer (deferredOutput env out) body
    ⟨Event.openOutput out :: r.trace, r.exit⟩

/-- The function `main`. -/
def main (env : Env) : Run :=
  match env.args with
  | [inputFile] =>
    let out := actualOutputFile env.outputFile inputFile
    match env.openInput with
    | none => ⟨opening inputFile ++ [Event.fatalOpen], Exit.fatal⟩
    | some wb =>
      let r := withDefer (deferredWorkbook wb)
        (withOutput env out (convert env wb inputFile out))
      ⟨opening inputFile ++ Event.openWorkbook :: r.trace, r.exit⟩
  | _ => ⟨[Event.usage], Exit.returned⟩

/-- The records handed to `csvWriter.Write`, in order. -/
def records : List Event → List (List String)
  | [] => []
  | Event.write r :: rest => r :: records rest
  | _ :: rest => records rest

/-! ## Vocabulary of the properties -/

/-- The run gets as far as the row iterator: one positional argument,
the workbook opens, the output stream is created, the sheet index is in
range and names `sheetName`, and `Rows` gives `rows` for it. -/
def Reaches (env : Env) (inputFile : String) (wb : Workbook) (sheetName : String)
    (rows : List RowRead) : Prop :=
  env.args = [inputFile] ∧ env.openInput = some wb ∧
  (actualOutputFile env.outputFile inputFile = "-" ∨ env.createFails = false) ∧
  0 ≤ env.sheetIndex ∧ wb.sheetList[env.sheetIndex.toNat]? = some sheetName ∧
  wb.rows sheetName = some rows

/-- The events after the body of a run whose output stream is open: the
two deferred functions, when the body returns. -/
def epilogue (env : Env) (wb : Workbook) (out : String) (body : Run) : List Event :=
  match body.exit with
  | Exit.fatal => []
  | _ => deferredOutput env out ++ deferredWorkbook wb

/-- The fatal messages (`log.Fatalf`). -/
def Event.isFatal : Event → Bool
  | Event.fatalOpen => true
  | Event.fatalCreate _ => true
  | Event.fatalSheetIndex _ _ _ => true
  | Event.fatalRows _ => true
  | Event.fatalHeaderRead => true
  | Event.fatalHeaderWrite => true
  | Event.fatalWrite => true
  | _ => false

/-- The rows of a stream that read without error, in order. -/
def readable : List RowRead → List (List String)
  | [] => []
  | RowRead.ok row :: rest => row :: readable rest
  | RowRead.err :: rest => readable rest

/-- The normal form the specification gives a row for a header of
`columnCount` fields: the first `columnCount` fields of the row followed
by `columnCount` empty strings. -/
def norm (columnCount : Nat) (row : List String) : List String :=
  (row ++ List.replicate columnCount "").take columnCount

/-- The numbers `N` of the progress messages of a trace, in order. -/
def progresses : List Event → List Nat
  | [] => []
  | Event.progress n :: rest => n :: progresses rest
  | _ :: rest => progresses rest

/-- The events the row loop (lines 137-164) can emit. -/
def Event.inLoop : Event → Bool
  | Event.next _ => true
  | Event.logReadError _ => true
  | Event.warnTruncate _ _ _ => true
  | Event.write _ => true
  | Event.logWriteError _ => true
  | Event.progress _ => true
  | Event.flush => true
  | _ => false

/-- What the progress rule lets come next in a trace. -/
inductive Expect where
  | anything
  | progressMessage
  | flushCall
  deriving DecidableEq, Repr

/-- The progress rule of the specification, checked along a trace;
`written` is the number of records written so far.  A write that brings
that number to a multiple of `progressReportInterval` must be followed at
once by the progress message naming the number and then by a flush; a
progress message anywhere else breaks the rule. -/
def followsProgressRule : Expect → Nat → List Event → Bool
  | Expect.anything, _, [] => true
  | Expect.progressMessage, _, [] => false
  | Expect.flushCall, _, [] => false
  | Expect.anything, written, e :: rest =>
    match e with
    | Event.write _ =>
      if (written + 1) % progressReportInterval = 0 then
        followsProgressRule Expect.progressMessage (written + 1) rest
      else
        followsProgressRule Expect.anything (written + 1) rest
    | Event.progress _ => false
    | _ => followsProgressRule Expect.anything written rest
  | Expect.progressMessage, written, e :: rest =>
    decide (e = Event.progress written) && followsProgressRule Expect.flushCall written rest
  | Expect.flushCall, written, e :: rest =>
    decide (e = Event.flush) && followsProgressRule Expect.anything written rest

/-! ## Sample inputs -/

/-- A workbook with the single sheet `Sheet1` holding the given rows. -/
def sampleWorkbook (rows : List RowRead) : Workbook :=
  ⟨["Sheet1"], fun name => if name = "Sheet1" then some rows else none, false⟩

/-- A run on `report.xlsx` with default flags in which no call fails. -/
def sampleEnv (rows : List RowRead) : Env :=
  ⟨["report.xlsx"], "", 0, some (sampleWorkbook rows), false, fun _ => false,
    fun _ => false, false, false⟩

/-- The size of the buffer of the writer `csv.NewWriter` returns
(`bufio.NewWriter`: 4096 bytes). -/
def csvBufferSize : Nat := 4096

/-- A cell of 5000 letters `a`: one byte each and nothing to quote, so
its CSV encoding is longer than the buffer of the writer. -/
def longField : String := String.mk (List.replicate 5000 'a')

/-- A header of the single cell `longField`.  Writing it cannot stay in
the buffer: `csvWriter.Write` passes bytes to the output stream during
the call. -/
def longHeader : List String := [longField]

/-- The run of `sampleEnv` on a sheet with the header `longHeader` and
the data rows `rest`, with an output stream that rejects what is written
to it (a full device): the stream is reached during the first call of
`csvWriter.Write`, the one for the header, and fails there. -/
def fullOutputEnv (rest : List RowRead) : Env :=
  ⟨["report.xlsx"], "", 0, some (sampleWorkbook (RowRead.ok longHeader :: rest)), false,
    fun k => decide (k = 0), fun _ => false, false, false⟩

/-- The run of `sampleEnv` with the flag `-sheet-index` set. -/
def sampleEnvAt (sheetIndex : Int) (rows : List RowRead) : Env :=
  ⟨["report.xlsx"], "", sheetIndex, some (sampleWorkbook rows), false, fun _ => false,
    fun _ => false, false, false⟩

/-! ## Row normalization -/

theorem copy_makeStrings (columnCount : Nat) (row : List String)
    (h : row.length < columnCount) :
    copy (makeStrings columnCount) row =
      row ++ List.replicate (columnCount - row.length) "" := by
  unfold copy makeStrings
  rw [List.length_replicate, List.take_of_length_le (Nat.le_of_lt h), List.drop_replicate]

theorem normalizeRow_eq_norm (columnCount rowCount : Nat) (row : List String) :
    (normalizeRow columnCount rowCount row).1 = norm columnCount row := by
  unfold normalizeRow norm
  by_cases h1 : row.length < columnCount
  · rw [if_pos h1, copy_makeStrings _ _ h1]
    show row ++ List.replicate (columnCount - row.length) "" = _
    rw [List.take_append_eq_append_take, List.take_of_length_le (Nat.le_of_lt h1),
      List.take_replicate, Nat.min_eq_left (Nat.sub_le _ _)]
  · rw [if_neg h1]
    by_cases h2 : row.length > columnCount
    · rw [if_pos h2]
      show row.take columnCount = _
      rw [List.take_append_of_le_length (Nat.le_of_lt h2)]
    · rw [if_neg h2]
      have h3 : row.length = columnCount := by omega
      show row = _
      rw [List.take_append_of_le_length (Nat.le_of_eq h3.symm), List.take_of_length_le
        (Nat.le_of_eq h3)]

theorem norm_length (columnCount : Nat) (row : List String) :
    (norm columnCount row).length = columnCount := by
  unfold norm
  simp

theorem normalizeRow_length (columnCount rowCount : Nat) (row : List String) :
    (normalizeRow columnCount rowCount row).1.length = columnCount := by
  rw [normalizeRow_eq_norm, norm_length]

/-! ## Records of a trace -/

theorem records_append (a b : List Event) : records (a ++ b) = records a ++ records b := by
  induction a with
  | nil => rfl
  | cons e a ih => cases e <;> simp [records, ih]

theorem records_normalizeRow (columnCount rowCount : Nat) (row : List String) :
    records (normalizeRow columnCount rowCount row).2 = [] := by
  unfold normalizeRow
  split_ifs <;> rfl

theorem records_processRow_ok (env : Env) (columnCount : Nat) (st : LoopState)
    (row : List String) :
    records (processRow env columnCount st (RowRead.ok row)).2 = [norm columnCount row] := by
  simp only [processRow]
  split_ifs <;>
    simp [records_append, records_normalizeRow, records, normalizeRow_eq_norm]

theorem processRows_nil (env : Env) (columnCount : Nat) (st : LoopState) :
    processRows env columnCount st [] = (st, [Event.next false]) := rfl

theorem processRows_cons (env : Env) (columnCount : Nat) (st : LoopState) (r : RowRead)
    (rest : List RowRead) :
    processRows env columnCount st (r :: rest) =
      ((processRows env columnCount (processRow env columnCount st r).1 rest).1,
        Event.next true :: ((processRow env columnCount st r).2 ++
          (processRows env columnCount (processRow env columnCount st r).1 rest).2)) := rfl

theorem processRow_err (env : Env) (columnCount : Nat) (st : LoopState) :
    processRow env columnCount st RowRead.err = (st, [Event.logReadError (st.rowCount + 1)]) :=
  rfl

theorem records_processRows (env : Env) (columnCount : Nat) (st : LoopState)
    (rows : List RowRead) :
    records (processRows env columnCount st rows).2 =
      (readable rows).map (norm columnCount) := by
  induction rows generalizing st with
  | nil => rfl
  | cons r rest ih =>
    cases r with
    | ok row =>
      rw [processRows_cons]
      show records (_ ++ _) = _
      rw [records_append, records_processRow_ok, ih]
      rfl
    | err =>
      rw [processRows_cons, processRow_err]
      show records (_ ++ _) = _
      rw [records_append, ih]
      rfl

/-! ## Shape of a run that reaches the rows -/

theorem withDefer_exit (d : List Event) (r : Run) : (withDefer d r).exit = r.exit := by
  unfold withDefer
  cases h : r.exit <;> simp [h]

theorem withDefer_trace_fatal (d : List Event) (r : Run) (h : r.exit = Exit.fatal) :
    (withDefer d r).trace = r.trace := by
  unfold withDefer
  simp [h]

theorem withDefer_trace_returned (d : List Event) (r : Run) (h : r.exit = Exit.returned) :
    (withDefer d r).trace = r.trace ++ d := by
  unfold withDefer
  simp [h]

theorem main_of_output (env : Env) (inputFile : String) (wb : Workbook)
    (hargs : env.args = [inputFile]) (hopen : env.openInput = some wb)
    (hout : actualOutputFile env.outputFile inputFile = "-" ∨ env.createFails = false) :
    main env =
      ⟨opening inputFile ++ Event.openWorkbook ::
          Event.openOutput (actualOutputFile env.outputFile inputFile) ::
          ((convert env wb inputFile (actualOutputFile env.outputFile inputFile)).trace ++
            epilogue env wb (actualOutputFile env.outputFile inputFile)
              (convert env wb inputFile (actualOutputFile env.outputFile inputFile))),
        (convert env wb inputFile (actualOutputFile env.outputFile inputFile)).exit⟩ := by
  have hc : ¬ (actualOutputFile env.outputFile inputFile ≠ "-" ∧ env.createFails = true) := by
    rcases hout with h | h
    · exact fun c => c.1 h
    · simp [h]
  unfold main
  simp only [hargs, hopen]
  unfold withOutput
  rw [if_neg hc]
  unfold withDefer epilogue
  cases h : (convert env wb inputFile (actualOutputFile env.outputFile inputFile)).exit <;>
    simp [h]

theorem convert_of_reaches (env : Env) (inputFile : String) (wb : Workbook)
    (sheetName : String) (rows : List RowRead) (out : String)
    (h : Reaches env inputFile wb sheetName rows) :
    convert env wb inputFile out = convertRows env sheetName inputFile out rows := by
  obtain ⟨_, _, _, h0, hget, hrows⟩ := h
  have hlt : env.sheetIndex.toNat < wb.sheetList.length := by
    rcases List.getElem?_eq_some.mp hget with ⟨hl, _⟩
    exact hl
  have hin : ¬ (env.sheetIndex < 0 ∨ env.sheetIndex ≥ (wb.sheetList.length : Int)) := by
    omega
  unfold convert
  simp only [hin, if_false, hget, hrows]

theorem main_of_reaches (env : Env) (inputFile : String) (wb : Workbook)
    (sheetName : String) (rows : List RowRead)
    (h : Reaches env inputFile wb sheetName rows) :
    main env =
      ⟨opening inputFile ++ Event.openWorkbook ::
          Event.openOutput (actualOutputFile env.outputFile inputFile) ::
          ((convertRows env sheetName inputFile
              (actualOutputFile env.outputFile inputFile) rows).trace ++
            epilogue env wb (actualOutputFile env.outputFile inputFile)
              (convertRows env sheetName inputFile
                (actualOutputFile env.outputFile inputFile) rows)),
        (convertRows env sheetName inputFile
          (actualOutputFile env.outputFile inputFile) rows).exit⟩ := by
  rw [main_of_output env inputFile wb h.1 h.2.1 h.2.2.1,
    convert_of_reaches env inputFile wb sheetName rows _ h]

theorem records_opening (inputFile : String) : records (opening inputFile) = [] := by
  unfold opening
  split_ifs <;> rfl

theorem records_epilogue (env : Env) (wb : Workbook) (out : String) (body : Run) :
    records (epilogue env wb out body) = [] := by
  unfold epilogue deferredOutput deferredWorkbook
  cases body.exit <;> simp only [] <;> (try split_ifs) <;> rfl

theorem records_main_of_reaches (env : Env) (inputFile : String) (wb : Workbook)
    (sheetName : String) (rows : List RowRead)
    (h : Reaches env inputFile wb sheetName rows) :
    records (main env).trace =
      records (convertRows env sheetName inputFile
        (actualOutputFile env.outputFile inputFile) rows).trace := by
  rw [main_of_reaches env inputFile wb sheetName rows h]
  show records (_ ++ ([Event.openWorkbook, Event.openOutput _] ++ (_ ++ _))) = _
  rw [records_append, records_append, records_append, records_opening, records_epilogue]
  simp [records]

theorem csvWrite_newWriter (env : Env) :
    csvWrite env newWriter = (⟨env.writeFails 0, 1, 0⟩, env.writeFails 0) := by
  simp [csvWrite, newWriter]

theorem records_convertRows_ok (env : Env) (sheetName inputFile out : String)
    (header : List String) (rest : List RowRead) (hw : env.writeFails 0 = false) :
    records (convertRows env sheetName inputFile out (RowRead.ok header :: rest)).trace =
      header :: (readable rest).map (norm header.length) := by
  simp only [convertRows, csvWrite_newWriter, hw, Bool.false_eq_true, if_false]
  by_cases he : csvError (processRows env header.length ⟨⟨false, 1, 0⟩, 1⟩ rest).1.writer = true
  · rw [if_pos he]
    simp only [records_append, records_processRows]
    by_cases hc : env.rowsCloseFails = true <;> simp [hc, records]
  · rw [if_neg he]
    simp only [records_append, records_processRows]
    by_cases hc : env.rowsCloseFails = true <;> simp [hc, records]

theorem records_convertRows_failed (env : Env) (sheetName inputFile out : String)
    (header : List String) (rest : List RowRead) (hw : env.writeFails 0 = true) :
    records (convertRows env sheetName inputFile out (RowRead.ok header :: rest)).trace =
      [header] := by
  simp [convertRows, csvWrite_newWriter, hw, records]

theorem readable_append (a b : List RowRead) : readable (a ++ b) = readable a ++ readable b := by
  induction a with
  | nil => rfl
  | cons r a ih => cases r <;> simp [readable, ih]

theorem readable_map_ok (rs : List (List String)) : readable (rs.map RowRead.ok) = rs := by
  induction rs with
  | nil => rfl
  | cons r rs ih => simp [readable, ih]

theorem norm_of_short (columnCount : Nat) (row : List String) (h : row.length < columnCount) :
    norm columnCount row = row ++ List.replicate (columnCount - row.length) "" := by
  rw [← normalizeRow_eq_norm columnCount 0 row]
  unfold normalizeRow
  rw [if_pos h, copy_makeStrings _ _ h]

theorem norm_of_long (columnCount : Nat) (row : List String) (h : columnCount ≤ row.length) :
    norm columnCount row = row.take columnCount := by
  unfold norm
  rw [List.take_append_of_le_length h]

theorem norm_of_eq (columnCount : Nat) (row : List String) (h : row.length = columnCount) :
    norm columnCount row = row := by
  rw [norm_of_long _ _ (Nat.le_of_eq h.symm), List.take_of_length_le (Nat.le_of_eq h)]

theorem sampleEnv_reaches (rows : List RowRead) :
    Reaches (sampleEnv rows) "report.xlsx" (sampleWorkbook rows) "Sheet1" rows :=
  ⟨rfl, rfl, Or.inr rfl, Int.le_refl 0, rfl, by simp [sampleWorkbook]⟩

/-! ## Which events a part of the run can emit -/

theorem normalizeRow_events (columnCount rowCount : Nat) (row : List String) :
    ∀ e ∈ (normalizeRow columnCount rowCount row).2, e.inLoop = true := by
  intro e he
  unfold normalizeRow at he
  split_ifs at he <;> simp at he
  rw [he]
  rfl

theorem processRow_events (env : Env) (columnCount : Nat) (st : LoopState) (r : RowRead) :
    ∀ e ∈ (processRow env columnCount st r).2, e.inLoop = true := by
  intro e he
  cases r with
  | err =>
    rw [processRow_err] at he
    simp only [List.mem_singleton] at he
    rw [he]
    rfl
  | ok row =>
    simp only [processRow] at he
    split_ifs at he <;>
      simp only [List.mem_append, List.mem_cons, List.mem_singleton, List.not_mem_nil,
        or_false] at he <;>
      casesm* _ ∨ _ <;>
      first
        | exact normalizeRow_events _ _ _ e (by assumption)
        | (subst e; rfl)

theorem processRows_events (env : Env) (columnCount : Nat) (st : LoopState)
    (rows : List RowRead) :
    ∀ e ∈ (processRows env columnCount st rows).2, e.inLoop = true := by
  induction rows generalizing st with
  | nil =>
    intro e he
    rw [processRows_nil] at he
    simp only [List.mem_singleton] at he
    rw [he]
    rfl
  | cons r rest ih =>
    intro e he
    rw [processRows_cons] at he
    simp only [List.mem_cons, List.mem_append] at he
    rcases he with he | he | he
    · rw [he]
      rfl
    · exact processRow_events _ _ _ _ e he
    · exact ih _ e he

theorem opening_mem (inputFile : String) (e : Event) (he : e ∈ opening inputFile) :
    e = Event.readingStdin := by
  unfold opening at he
  split_ifs at he <;> simp at he
  exact he

theorem epilogue_mem (env : Env) (wb : Workbook) (out : String) (body : Run) (e : Event)
    (he : e ∈ epilogue env wb out body) :
    e = Event.flush ∨ e = Event.closeOutput ∨ e = Event.logCloseOutputError ∨
      e = Event.closeWorkbook ∨ e = Event.logCloseWorkbookError := by
  unfold epilogue at he
  split at he
  · simp at he
  · unfold deferredOutput deferredWorkbook at he
    split_ifs at he <;> simp at he <;> tauto

theorem convertRows_mem (env : Env) (sheetName inputFile out : String) (rows : List RowRead)
    (e : Event) (he : e ∈ (convertRows env sheetName inputFile out rows).trace) :
    e.inLoop = true ∨ e = Event.openRows sheetName ∨
      e = Event.converting sheetName env.sheetIndex inputFile out ∨
      e = Event.warnEmpty sheetName ∨ e = Event.fatalHeaderRead ∨
      e = Event.fatalHeaderWrite ∨ e = Event.closeRows ∨ e = Event.logCloseRowsError ∨
      e = Event.fatalWrite ∨ ∃ n, e = Event.complete n := by
  match rows with
  | [] =>
    simp only [convertRows, List.mem_append, List.mem_cons, List.mem_singleton,
      List.not_mem_nil, or_false] at he
    rcases he with (he | he) | he | he <;> subst e <;> simp [Event.inLoop]
  | RowRead.err :: _ =>
    simp only [convertRows, List.mem_append, List.mem_cons, List.mem_singleton,
      List.not_mem_nil, or_false] at he
    rcases he with (he | he) | he | he <;> subst e <;> simp [Event.inLoop]
  | RowRead.ok header :: rest =>
    simp only [convertRows] at he
    split_ifs at he <;>
      simp only [List.mem_append, List.mem_cons, List.mem_singleton, List.not_mem_nil,
        or_false] at he <;>
      casesm* _ ∨ _ <;>
      first
        | exact Or.inl (processRows_events _ _ _ _ e (by assumption))
        | (subst e; simp [Event.inLoop])

theorem convert_out_of_bounds (env : Env) (wb : Workbook) (inputFile out : String)
    (h : env.sheetIndex < 0 ∨ env.sheetIndex ≥ (wb.sheetList.length : Int)) :
    convert env wb inputFile out =
      ⟨[Event.fatalSheetIndex env.sheetIndex wb.sheetList.length (wb.sheetList.length - 1)],
        Exit.fatal⟩ := by
  unfold convert
  simp only [h, if_true]

theorem convert_in_bounds (env : Env) (wb : Workbook) (inputFile out sheetName : String)
    (h : ¬ (env.sheetIndex < 0 ∨ env.sheetIndex ≥ (wb.sheetList.length : Int)))
    (hget : wb.sheetList[env.sheetIndex.toNat]? = some sheetName) :
    convert env wb inputFile out =
      match wb.rows sheetName with
      | none => ⟨[Event.fatalRows sheetName], Exit.fatal⟩
      | some rows => convertRows env sheetName inputFile out rows := by
  unfold convert
  simp only [h, if_false, hget]

theorem convert_mem (env : Env) (wb : Workbook) (inputFile out sheetName : String)
    (h : ¬ (env.sheetIndex < 0 ∨ env.sheetIndex ≥ (wb.sheetList.length : Int)))
    (hget : wb.sheetList[env.sheetIndex.toNat]? = some sheetName)
    (e : Event) (he : e ∈ (convert env wb inputFile out).trace) :
    e.inLoop = true ∨ e = Event.openRows sheetName ∨ e = Event.fatalRows sheetName ∨
      e = Event.converting sheetName env.sheetIndex inputFile out ∨
      e = Event.warnEmpty sheetName ∨ e = Event.fatalHeaderRead ∨
      e = Event.fatalHeaderWrite ∨ e = Event.closeRows ∨ e = Event.logCloseRowsError ∨
      e = Event.fatalWrite ∨ ∃ n, e = Event.complete n := by
  rw [convert_in_bounds env wb inputFile out sheetName h hget] at he
  cases hr : wb.rows sheetName with
  | none =>
    rw [hr] at he
    simp only [List.mem_singleton] at he
    exact Or.inr (Or.inr (Or.inl he))
  | some rows =>
    rw [hr] at he
    have := convertRows_mem env sheetName inputFile out rows e he
    tauto

theorem convert_selects (env : Env) (wb : Workbook) (inputFile out sheetName : String)
    (h : ¬ (env.sheetIndex < 0 ∨ env.sheetIndex ≥ (wb.sheetList.length : Int)))
    (hget : wb.sheetList[env.sheetIndex.toNat]? = some sheetName) :
    (Event.openRows sheetName ∈ (convert env wb inputFile out).trace ∨
      Event.fatalRows sheetName ∈ (convert env wb inputFile out).trace) ∧
    (convert env wb inputFile out).exit ≠ Exit.panic := by
  rw [convert_in_bounds env wb inputFile out sheetName h hget]
  cases hr : wb.rows sheetName with
  | none => simp
  | some rows =>
    match rows with
    | [] => simp [convertRows]
    | RowRead.err :: _ => simp [convertRows]
    | RowRead.ok header :: rest =>
      simp only [convertRows]
      split_ifs <;> simp

/-! ## The loop state -/

theorem processRow_rowCount_ok (env : Env) (columnCount : Nat) (st : LoopState)
    (row : List String) :
    (processRow env columnCount st (RowRead.ok row)).1.rowCount = st.rowCount + 1 := by
  simp only [processRow]
  split_ifs <;> rfl

theorem processRows_rowCount (env : Env) (columnCount : Nat) (st : LoopState)
    (rows : List RowRead) :
    (processRows env columnCount st rows).1.rowCount =
      st.rowCount + (readable rows).length := by
  induction rows generalizing st with
  | nil => rfl
  | cons r rest ih =>
    rw [processRows_cons]
    cases r with
    | ok row =>
      show (processRows env columnCount _ rest).1.rowCount = _
      rw [ih, processRow_rowCount_ok]
      simp only [readable, List.length_cons]
      omega
    | err =>
      show (processRows env columnCount _ rest).1.rowCount = _
      rw [ih, processRow_err]
      rfl

theorem processRow_writer (env : Env) (columnCount : Nat) (st : LoopState) (r : RowRead)
    (hw : ∀ k, env.writeFails k = false) (hf : ∀ k, env.flushFails k = false)
    (h0 : st.writer.failed = false) :
    (processRow env columnCount st r).1.writer.failed = false := by
  cases r with
  | err => exact h0
  | ok row =>
    simp only [processRow]
    split_ifs <;> simp [csvWrite, csvFlush, h0, hw, hf]

theorem processRows_writer (env : Env) (columnCount : Nat) (st : LoopState)
    (rows : List RowRead)
    (hw : ∀ k, env.writeFails k = false) (hf : ∀ k, env.flushFails k = false)
    (h0 : st.writer.failed = false) :
    (processRows env columnCount st rows).1.writer.failed = false := by
  induction rows generalizing st with
  | nil => exact h0
  | cons r rest ih =>
    rw [processRows_cons]
    exact ih _ (processRow_writer env columnCount st r hw hf h0)

theorem convertRows_of_no_failure (env : Env) (sheetName inputFile out : String)
    (header : List String) (rest : List RowRead)
    (hw : ∀ k, env.writeFails k = false) (hf : ∀ k, env.flushFails k = false) :
    convertRows env sheetName inputFile out (RowRead.ok header :: rest) =
      ⟨[Event.openRows sheetName, Event.converting sheetName env.sheetIndex inputFile out] ++
          [Event.next true, Event.write header] ++
          (processRows env header.length ⟨⟨false, 1, 0⟩, 1⟩ rest).2 ++
          (Event.closeRows ::
            (if env.rowsCloseFails then [Event.logCloseRowsError] else [])) ++
          [Event.complete (1 + (readable rest).length)],
        Exit.returned⟩ := by
  have h1 := processRows_writer env header.length ⟨⟨false, 1, 0⟩, 1⟩ rest hw hf rfl
  have h2 := processRows_rowCount env header.length ⟨⟨false, 1, 0⟩, 1⟩ rest
  simp only [convertRows, csvWrite_newWriter, hw 0, Bool.false_eq_true, if_false, csvError, h1,
    h2]

theorem processRows_append_mem (env : Env) (columnCount : Nat) (st : LoopState)
    (a b : List RowRead) (e : Event)
    (he : e ∈ (processRows env columnCount (processRows env columnCount st a).1 b).2) :
    e ∈ (processRows env columnCount st (a ++ b)).2 := by
  induction a generalizing st with
  | nil => exact he
  | cons r a ih =>
    rw [List.cons_append, processRows_cons]
    rw [processRows_cons] at he
    simp only [List.mem_cons, List.mem_append]
    exact Or.inr (Or.inr (ih _ he))

theorem loop_subset_convertRows (env : Env) (sheetName inputFile out : String)
    (header : List String) (rest : List RowRead) (hw : env.writeFails 0 = false) (e : Event)
    (he : e ∈ (processRows env header.length ⟨⟨false, 1, 0⟩, 1⟩ rest).2) :
    e ∈ (convertRows env sheetName inputFile out (RowRead.ok header :: rest)).trace := by
  simp only [convertRows, csvWrite_newWriter, hw, Bool.false_eq_true, if_false]
  split_ifs <;> simp [he]

theorem convertRows_subset_main (env : Env) (inputFile : String) (wb : Workbook)
    (sheetName : String) (rows : List RowRead)
    (h : Reaches env inputFile wb sheetName rows) (e : Event)
    (he : e ∈ (convertRows env sheetName inputFile
      (actualOutputFile env.outputFile inputFile) rows).trace) :
    e ∈ (main env).trace := by
  rw [main_of_reaches env inputFile wb sheetName rows h]
  simp only [List.mem_append, List.mem_cons]
  exact Or.inr (Or.inr (Or.inr (Or.inl he)))

/-! ## The path helpers -/

theorem lastElement_of_no_separator (a : List Char) (acc : List Char)
    (ha : ∀ c ∈ a, ¬ c = '/') :
    lastElement a acc = a.reverse ++ acc := by
  induction a generalizing acc with
  | nil => rfl
  | cons c a ih =>
    have hc : isPathSeparator c = false := by
      simp [isPathSeparator, ha c (List.mem_cons_self c a)]
    simp only [lastElement, hc, Bool.false_eq_true, if_false]
    rw [ih _ (fun d hd => ha d (List.mem_cons_of_mem c hd))]
    simp

theorem lastElement_stops (a b : List Char) (acc : List Char) (ha : ∀ c ∈ a, ¬ c = '/') :
    lastElement (a ++ '/' :: b) acc = a.reverse ++ acc := by
  induction a generalizing acc with
  | nil => simp [lastElement, isPathSeparator]
  | cons c a ih =>
    have hc : isPathSeparator c = false := by
      simp [isPathSeparator, ha c (List.mem_cons_self c a)]
    rw [List.cons_append]
    simp only [lastElement, hc, Bool.false_eq_true, if_false]
    rw [ih _ (fun d hd => ha d (List.mem_cons_of_mem c hd))]
    simp

theorem stripTrailing_of_name (name : List Char) (rest : List Char) (hne : name ≠ [])
    (hn : ∀ c ∈ name, ¬ c = '/') :
    stripTrailing (name.reverse ++ rest) = name.reverse ++ rest := by
  cases hr : name.reverse with
  | nil => exact absurd (List.reverse_eq_nil_iff.mp hr) hne
  | cons c tl =>
    have hmem : c ∈ name := by
      rw [← List.mem_reverse, hr]
      exact List.mem_cons_self c tl
    have hc : isPathSeparator c = false := by simp [isPathSeparator, hn c hmem]
    simp [stripTrailing, hc]

/-- The base of `dir ++ name` is `name`, for a non-empty `name` without
separator and a `dir` that is empty or ends with a separator. -/
theorem baseChars_append (dir name : List Char) (hne : name ≠ [])
    (hn : ∀ c ∈ name, ¬ c = '/') (hd : dir = [] ∨ ∃ d, dir = d ++ ['/']) :
    baseChars (dir ++ name) = name := by
  have hne2 : dir ++ name ≠ [] := by simp [hne]
  unfold baseChars
  rw [if_neg hne2]
  simp only [List.reverse_append]
  rw [stripTrailing_of_name name _ hne hn]
  have hrev : ∀ c ∈ name.reverse, ¬ c = '/' := fun c hc => hn c (List.mem_reverse.mp hc)
  have hlast : lastElement (name.reverse ++ dir.reverse) [] = name := by
    rcases hd with hd | ⟨d, hd⟩
    · rw [hd, List.reverse_nil, List.append_nil, lastElement_of_no_separator _ _ hrev]
      simp
    · rw [hd, List.reverse_append, List.reverse_singleton, List.singleton_append,
        lastElement_stops _ _ _ hrev]
      simp
  rw [hlast, if_neg hne]

theorem extLoop_finds_dot (a b acc : List Char) (ha : ∀ c ∈ a, ¬ c = '/' ∧ ¬ c = '.') :
    extLoop (a ++ '.' :: b) acc = '.' :: (a.reverse ++ acc) := by
  induction a generalizing acc with
  | nil => simp [extLoop, isPathSeparator]
  | cons c a ih =>
    have h1 := ha c (List.mem_cons_self c a)
    have hc : isPathSeparator c = false := by simp [isPathSeparator, h1.1]
    rw [List.cons_append]
    simp only [extLoop, hc, Bool.false_eq_true, if_false, h1.2]
    rw [ih _ (fun d hd => ha d (List.mem_cons_of_mem c hd))]
    simp

theorem extLoop_of_no_dot (a acc : List Char) (ha : ∀ c ∈ a, ¬ c = '.') :
    extLoop a acc = [] := by
  induction a generalizing acc with
  | nil => rfl
  | cons c a ih =>
    simp only [extLoop, ha c (List.mem_cons_self c a), if_false]
    split_ifs
    · rfl
    · exact ih _ (fun d hd => ha d (List.mem_cons_of_mem c hd))

/-- The extension of `stem ++ "." ++ ext` is `"." ++ ext` when `ext`
holds no dot and no separator. -/
theorem extChars_append (stem ext : List Char) (he : ∀ c ∈ ext, ¬ c = '/' ∧ ¬ c = '.') :
    extChars (stem ++ '.' :: ext) = '.' :: ext := by
  unfold extChars
  rw [List.reverse_append, List.reverse_cons, List.append_assoc, List.singleton_append,
    extLoop_finds_dot _ _ _ (fun c hc => he c (List.mem_reverse.mp hc))]
  simp

theorem extChars_of_no_dot (name : List Char) (hn : ∀ c ∈ name, ¬ c = '.') :
    extChars name = [] :=
  extLoop_of_no_dot _ _ (fun c hc => hn c (List.mem_reverse.mp hc))

theorem trimSuffixChars_append (stem suffix : List Char) :
    trimSuffixChars (stem ++ suffix) suffix = stem := by
  unfold trimSuffixChars
  have hs : suffix.isSuffixOf (stem ++ suffix) = true :=
    List.isSuffixOf_iff_suffix.mpr (List.suffix_append stem suffix)
  rw [if_pos hs, List.length_append, Nat.add_sub_cancel, List.take_left]

theorem trimSuffixChars_nil (s : List Char) : trimSuffixChars s [] = s := by
  have := trimSuffixChars_append s []
  rwa [List.append_nil] at this

theorem specReplaceExt_of_ext (stem ext : String)
    (he : ∀ c ∈ ext.data, ¬ c = '/' ∧ ¬ c = '.') :
    specReplaceExt (stem ++ "." ++ ext) = stem ++ ".csv" := by
  apply String.ext
  have hd : (stem ++ "." ++ ext).data = stem.data ++ '.' :: ext.data := by
    simp [String.data_append]
  simp only [specReplaceExt, stringsTrimSuffix, filepathExt, String.data_append, hd]
  rw [extChars_append _ _ he, trimSuffixChars_append]

theorem specReplaceExt_of_no_dot (name : String) (hn : ∀ c ∈ name.data, ¬ c = '.') :
    specReplaceExt name = name ++ ".csv" := by
  apply String.ext
  simp only [specReplaceExt, stringsTrimSuffix, filepathExt, String.data_append]
  rw [extChars_of_no_dot _ hn, trimSuffixChars_nil]

theorem filepathBase_append (dir name : String) (hne : name ≠ "")
    (hn : ∀ c ∈ name.data, ¬ c = '/') (hd : dir = "" ∨ ∃ d : String, dir = d ++ "/") :
    filepathBase (dir ++ name) = name := by
  apply String.ext
  simp only [filepathBase, String.data_append]
  apply baseChars_append _ _ _ hn
  · rcases hd with hd | ⟨d, hd⟩
    · left
      rw [hd]
    · right
      exact ⟨d.data, by rw [hd]; rfl⟩
  · intro hnil
    exact hne (String.ext hnil)

/-! ## The progress rule -/

theorem followsProgressRule_append (x : Expect) (written : Nat) (a b : List Event)
    (h : followsProgressRule x written a = true) :
    followsProgressRule x written (a ++ b) =
      followsProgressRule Expect.anything (written + (records a).length) b := by
  induction a generalizing x written with
  | nil =>
    cases x
    · rfl
    · simp [followsProgressRule] at h
    · simp [followsProgressRule] at h
  | cons e a ih =>
    cases x with
    | anything =>
      cases e
      case write r =>
        rw [List.cons_append]
        simp only [followsProgressRule] at h ⊢
        split_ifs at h ⊢ <;> rw [ih _ _ h] <;> simp only [records, List.length_cons] <;>
          congr 1 <;> omega
      case progress n => simp [followsProgressRule] at h
      all_goals
        rw [List.cons_append]
        simp only [followsProgressRule] at h ⊢
        rw [ih _ _ h]
        rfl
    | progressMessage =>
      rw [List.cons_append]
      simp only [followsProgressRule, Bool.and_eq_true, decide_eq_true_eq] at h ⊢
      obtain ⟨he, h⟩ := h
      subst he
      rw [ih _ _ h]
      simp [records]
    | flushCall =>
      rw [List.cons_append]
      simp only [followsProgressRule, Bool.and_eq_true, decide_eq_true_eq] at h ⊢
      obtain ⟨he, h⟩ := h
      subst he
      rw [ih _ _ h]
      simp [records]

theorem followsProgressRule_at_progress (x : Expect) (written : Nat) (pre post : List Event)
    (n : Nat)
    (h : followsProgressRule x written (pre ++ Event.progress n :: post) = true)
    (hx : x = Expect.progressMessage → 0 < written ∧ written % progressReportInterval = 0) :
    n = written + (records pre).length ∧ 0 < n ∧ n % progressReportInterval = 0 ∧
      ∃ post2, post = Event.flush :: post2 := by
  induction pre generalizing x written with
  | nil =>
    cases x with
    | anything => simp [followsProgressRule] at h
    | flushCall => simp [followsProgressRule] at h
    | progressMessage =>
      simp only [List.nil_append, followsProgressRule, Bool.and_eq_true, decide_eq_true_eq,
        Event.progress.injEq] at h
      obtain ⟨hn, h⟩ := h
      subst hn
      refine ⟨rfl, (hx rfl).1, (hx rfl).2, ?_⟩
      cases post with
      | nil => simp [followsProgressRule] at h
      | cons e post2 =>
        simp only [followsProgressRule, Bool.and_eq_true, decide_eq_true_eq] at h
        exact ⟨post2, by rw [h.1]⟩
  | cons e pre ih =>
    rw [List.cons_append] at h
    cases x with
    | anything =>
      cases e
      case write r =>
        simp only [followsProgressRule] at h
        have hlen : written + (records (Event.write r :: pre)).length =
            written + 1 + (records pre).length := by
          simp only [records, List.length_cons]
          omega
        rw [hlen]
        split_ifs at h with hm
        · exact ih _ _ h (fun _ => ⟨Nat.succ_pos _, hm⟩)
        · exact ih _ _ h (fun hc => by cases hc)
      case progress m => simp [followsProgressRule] at h
      all_goals
        simp only [followsProgressRule] at h
        exact ih _ _ h (fun hc => by cases hc)
    | progressMessage =>
      simp only [followsProgressRule, Bool.and_eq_true, decide_eq_true_eq] at h
      obtain ⟨he, h⟩ := h
      subst he
      exact ih _ _ h (fun hc => by cases hc)
    | flushCall =>
      simp only [followsProgressRule, Bool.and_eq_true, decide_eq_true_eq] at h
      obtain ⟨he, h⟩ := h
      subst he
      exact ih _ _ h (fun hc => by cases hc)

theorem followsProgressRule_at_write (x : Expect) (written : Nat) (pre post : List Event)
    (r : List String)
    (h : followsProgressRule x written (pre ++ Event.write r :: post) = true)
    (hm : (written + (records pre).length + 1) % progressReportInterval = 0) :
    ∃ post2, post =
      Event.progress (written + (records pre).length + 1) :: Event.flush :: post2 := by
  induction pre generalizing x written with
  | nil =>
    cases x with
    | progressMessage => simp [followsProgressRule] at h
    | flushCall => simp [followsProgressRule] at h
    | anything =>
      simp only [records, List.length_nil, Nat.add_zero] at hm ⊢
      simp only [List.nil_append, followsProgressRule, hm, if_true] at h
      cases post with
      | nil => simp [followsProgressRule] at h
      | cons e post1 =>
        simp only [followsProgressRule, Bool.and_eq_true, decide_eq_true_eq] at h
        obtain ⟨he, h⟩ := h
        cases post1 with
        | nil => simp [followsProgressRule] at h
        | cons e2 post2 =>
          simp only [followsProgressRule, Bool.and_eq_true, decide_eq_true_eq] at h
          exact ⟨post2, by rw [he, h.1]⟩
  | cons e pre ih =>
    rw [List.cons_append] at h
    cases x with
    | anything =>
      cases e
      case write r2 =>
        simp only [followsProgressRule] at h
        have hlen : written + (records (Event.write r2 :: pre)).length =
            written + 1 + (records pre).length := by
          simp only [records, List.length_cons]
          omega
        rw [hlen] at hm ⊢
        split_ifs at h
        · exact ih _ _ h hm
        · exact ih _ _ h hm
      case progress m => simp [followsProgressRule] at h
      all_goals
        simp only [followsProgressRule] at h
        exact ih _ _ h hm
    | progressMessage =>
      simp only [followsProgressRule, Bool.and_eq_true, decide_eq_true_eq] at h
      obtain ⟨he, h⟩ := h
      subst he
      exact ih _ _ h hm
    | flushCall =>
      simp only [followsProgressRule, Bool.and_eq_true, decide_eq_true_eq] at h
      obtain ⟨he, h⟩ := h
      subst he
      exact ih _ _ h hm

theorem followsProgressRule_skip (written : Nat) (a b : List Event)
    (ha : ∀ e ∈ a, (∀ r, e ≠ Event.write r) ∧ (∀ n, e ≠ Event.progress n)) :
    followsProgressRule Expect.anything written (a ++ b) =
      followsProgressRule Expect.anything written b := by
  induction a with
  | nil => rfl
  | cons e a ih =>
    have he := ha e (List.mem_cons_self e a)
    have ih2 := ih (fun d hd => ha d (List.mem_cons_of_mem e hd))
    rw [List.cons_append]
    cases e
    case write r => exact absurd rfl (he.1 r)
    case progress n => exact absurd rfl (he.2 n)
    all_goals
      simp only [followsProgressRule]
      exact ih2

theorem processRow_follows_rule (env : Env) (columnCount : Nat) (st : LoopState)
    (row : List String) (hw : ∀ k, env.writeFails k = false)
    (h0 : st.writer.failed = false) :
    followsProgressRule Expect.anything st.rowCount
      (processRow env columnCount st (RowRead.ok row)).2 = true := by
  have hwr : (csvWrite env st.writer).2 = false := by simp [csvWrite, h0, hw]
  simp only [processRow, hwr, Bool.false_eq_true, if_false, List.append_nil]
  unfold normalizeRow
  split_ifs <;> simp [followsProgressRule, *]

theorem records_processRow_length (env : Env) (columnCount : Nat) (st : LoopState)
    (row : List String) :
    (records (processRow env columnCount st (RowRead.ok row)).2).length = 1 := by
  rw [records_processRow_ok]
  rfl

theorem processRows_follows_rule (env : Env) (columnCount : Nat) (st : LoopState)
    (rows : List RowRead) (b : List Event)
    (hw : ∀ k, env.writeFails k = false) (hf : ∀ k, env.flushFails k = false)
    (h0 : st.writer.failed = false) :
    followsProgressRule Expect.anything st.rowCount
        ((processRows env columnCount st rows).2 ++ b) =
      followsProgressRule Expect.anything (st.rowCount + (readable rows).length) b := by
  induction rows generalizing st with
  | nil => rfl
  | cons r rest ih =>
    rw [processRows_cons]
    show followsProgressRule Expect.anything st.rowCount
      (Event.next true :: ((_ ++ _) ++ b)) = _
    rw [List.append_assoc]
    simp only [followsProgressRule]
    cases r with
    | err =>
      rw [processRow_err]
      simp only [List.singleton_append, followsProgressRule]
      exact ih st h0
    | ok row =>
      rw [followsProgressRule_append _ _ _ _ (processRow_follows_rule env columnCount st row hw h0),
        records_processRow_length, ← processRow_rowCount_ok env columnCount st row,
        ih _ (processRow_writer env columnCount st _ hw hf h0), processRow_rowCount_ok]
      simp only [readable, List.length_cons]
      congr 1
      omega

theorem progresses_append (a b : List Event) :
    progresses (a ++ b) = progresses a ++ progresses b := by
  induction a with
  | nil => rfl
  | cons e a ih => cases e <;> simp [progresses, ih]

theorem progresses_eq_nil (a : List Event) (ha : ∀ e ∈ a, ∀ n, e ≠ Event.progress n) :
    progresses a = [] := by
  induction a with
  | nil => rfl
  | cons e a ih =>
    have he := ha e (List.mem_cons_self e a)
    have ih2 := ih (fun d hd => ha d (List.mem_cons_of_mem e hd))
    cases e
    case progress n => exact absurd rfl (he n)
    all_goals
      simp only [progresses]
      exact ih2

theorem progresses_processRow_ok (env : Env) (columnCount : Nat) (st : LoopState)
    (row : List String) :
    progresses (processRow env columnCount st (RowRead.ok row)).2 =
      if (st.rowCount + 1) % progressReportInterval = 0 then [st.rowCount + 1] else [] := by
  have hn : progresses (normalizeRow columnCount st.rowCount row).2 = [] := by
    unfold normalizeRow
    split_ifs <;> rfl
  simp only [processRow]
  split_ifs <;> simp [progresses_append, hn, progresses]

theorem progresses_processRows (env : Env) (columnCount : Nat) (st : LoopState)
    (rows : List RowRead) :
    progresses (processRows env columnCount st rows).2 =
      (List.range' (st.rowCount + 1) (readable rows).length).filter
        (fun n => decide (n % progressReportInterval = 0)) := by
  induction rows generalizing st with
  | nil => rfl
  | cons r rest ih =>
    rw [processRows_cons]
    show progresses ([Event.next true] ++ (_ ++ _)) = _
    rw [progresses_append, progresses_append, ih]
    cases r with
    | err =>
      rw [processRow_err]
      rfl
    | ok row =>
      rw [progresses_processRow_ok, processRow_rowCount_ok]
      simp only [readable, List.length_cons, List.range'_succ, List.filter_cons]
      split_ifs <;> simp_all [progresses]

theorem main_trace_of_no_failure (env : Env) (inputFile : String) (wb : Workbook)
    (sheetName : String) (header : List String) (rest : List RowRead)
    (h : Reaches env inputFile wb sheetName (RowRead.ok header :: rest))
    (hw : ∀ k, env.writeFails k = false) (hf : ∀ k, env.flushFails k = false) :
    (main env).trace =
      opening inputFile ++
        ([Event.openWorkbook, Event.openOutput (actualOutputFile env.outputFile inputFile),
            Event.openRows sheetName,
            Event.converting sheetName env.sheetIndex inputFile
              (actualOutputFile env.outputFile inputFile),
            Event.next true, Event.write header] ++
          ((processRows env header.length ⟨⟨false, 1, 0⟩, 1⟩ rest).2 ++
            ((Event.closeRows ::
                (if env.rowsCloseFails then [Event.logCloseRowsError] else [])) ++
              (Event.complete (1 + (readable rest).length) ::
                (deferredOutput env (actualOutputFile env.outputFile inputFile) ++
                  deferredWorkbook wb))))) ∧
      (main env).exit = Exit.returned := by
  rw [main_of_reaches env inputFile wb sheetName _ h,
    convertRows_of_no_failure env sheetName inputFile _ header rest hw hf]
  simp [epilogue]

theorem closing_is_quiet (env : Env) (wb : Workbook) (out : String) (n : Nat) :
    ∀ e ∈ (Event.closeRows :: (if env.rowsCloseFails then [Event.logCloseRowsError] else [])) ++
        (Event.complete n :: (deferredOutput env out ++ deferredWorkbook wb)),
      (∀ r, e ≠ Event.write r) ∧ (∀ m, e ≠ Event.progress m) := by
  intro e he
  unfold deferredOutput deferredWorkbook at he
  split_ifs at he <;> simp at he <;> casesm* _ ∨ _ <;> subst e <;> simp

theorem opening_is_quiet (inputFile : String) :
    ∀ e ∈ opening inputFile, (∀ r, e ≠ Event.write r) ∧ (∀ m, e ≠ Event.progress m) := by
  intro e he
  rw [opening_mem _ _ he]
  simp

theorem main_follows_rule (env : Env) (inputFile : String) (wb : Workbook)
    (sheetName : String) (header : List String) (rest : List RowRead)
    (h : Reaches env inputFile wb sheetName (RowRead.ok header :: rest))
    (hw : ∀ k, env.writeFails k = false) (hf : ∀ k, env.flushFails k = false) :
    followsProgressRule Expect.anything 0 (main env).trace = true := by
  rw [(main_trace_of_no_failure env inputFile wb sheetName header rest h hw hf).1,
    followsProgressRule_skip _ _ _ (opening_is_quiet inputFile)]
  simp only [List.cons_append, List.nil_append, followsProgressRule]
  have h1 : ¬ ((0 + 1) % progressReportInterval = 0) := by decide
  rw [if_neg h1]
  have hloop := processRows_follows_rule env header.length ⟨⟨false, 1, 0⟩, 1⟩ rest
    ((Event.closeRows :: (if env.rowsCloseFails then [Event.logCloseRowsError] else [])) ++
      (Event.complete (1 + (readable rest).length) ::
        (deferredOutput env (actualOutputFile env.outputFile inputFile) ++
          deferredWorkbook wb))) hw hf rfl
  simp only [List.cons_append] at hloop
  refine Eq.trans hloop ?_
  have hq := followsProgressRule_skip (1 + (readable rest).length) _ []
    (closing_is_quiet env wb (actualOutputFile env.outputFile inputFile)
      (1 + (readable rest).length))
  simp only [List.cons_append, List.append_nil] at hq
  exact Eq.trans hq rfl

theorem progresses_main (env : Env) (inputFile : String) (wb : Workbook)
    (sheetName : String) (header : List String) (rest : List RowRead)
    (h : Reaches env inputFile wb sheetName (RowRead.ok header :: rest))
    (hw : ∀ k, env.writeFails k = false) (hf : ∀ k, env.flushFails k = false) :
    progresses (main env).trace =
      (List.range' 1 ((readable rest).length + 1)).filter
        (fun n => decide (n % progressReportInterval = 0)) := by
  rw [(main_trace_of_no_failure env inputFile wb sheetName header rest h hw hf).1,
    progresses_append, progresses_append, progresses_append, progresses_processRows,
    progresses_eq_nil _ (fun e he => (opening_is_quiet inputFile e he).2),
    progresses_eq_nil _ (fun e he => (closing_is_quiet env wb _ _ e he).2)]
  simp only [List.range'_succ, List.filter_cons]
  have h1 : ¬ (1 % progressReportInterval = 0) := by decide
  simp [progresses, h1]

set_option maxRecDepth 100000 in
theorem multiples_up_to_1501 :
    (List.range' 1 1501).filter (fun n => decide (n % progressReportInterval = 0)) =
      [1000] := by
  decide

/-! ## Truncation, and what a fatal end leaves undone -/

theorem normalizeRow_no_warning (columnCount rowCount : Nat) (row : List String)
    (h : row.length ≤ columnCount) : (normalizeRow columnCount rowCount row).2 = [] := by
  unfold normalizeRow
  split_ifs with h1 h2
  · rfl
  · omega
  · rfl

/-- When every earlier row was read, a row longer than the header is
written as its first `columnCount` fields and the warning names its
number in the sheet, its length and `columnCount`. -/
theorem long_row_is_truncated (env : Env) (inputFile : String) (wb : Workbook)
    (sheetName : String) (header : List String) (pre : List (List String))
    (row : List String) (post : List RowRead)
    (h : Reaches env inputFile wb sheetName
      (RowRead.ok header :: (pre.map RowRead.ok ++ RowRead.ok row :: post)))
    (hw : env.writeFails 0 = false) (hn : header.length < row.length) :
    (records (main env).trace)[pre.length + 1]? = some (row.take header.length) ∧
      Event.warnTruncate (pre.length + 2) row.length header.length ∈ (main env).trace := by
  constructor
  · rw [records_main_of_reaches env inputFile wb sheetName _ h,
      records_convertRows_ok env sheetName inputFile _ header _ hw, readable_append,
      readable_map_ok]
    have hlen : (pre.map (norm header.length)).length = pre.length := List.length_map _ _
    rw [List.getElem?_cons_succ, List.map_append, List.getElem?_append_right (by omega), hlen,
      Nat.sub_self]
    simp only [readable, List.map_cons, List.getElem?_cons_zero]
    rw [norm_of_long _ _ (Nat.le_of_lt hn)]
  · apply convertRows_subset_main env inputFile wb sheetName _ h
    apply loop_subset_convertRows env sheetName inputFile _ header _ hw
    apply processRows_append_mem
    rw [processRows_cons]
    have hnorm : (normalizeRow header.length (1 + pre.length) row).2 =
        [Event.warnTruncate (pre.length + 2) row.length header.length] := by
      unfold normalizeRow
      rw [if_neg (by omega), if_pos hn]
      have : 1 + pre.length + 1 = pre.length + 2 := by omega
      rw [this]
    have hmem : Event.warnTruncate (pre.length + 2) row.length header.length ∈
        (processRow env header.length
          ⟨(processRows env header.length ⟨⟨false, 1, 0⟩, 1⟩ (pre.map RowRead.ok)).1.writer,
            1 + pre.length⟩ (RowRead.ok row)).2 := by
      simp only [processRow, hnorm]
      split_ifs <;> simp
    have hst : (processRows env header.length ⟨⟨false, 1, 0⟩, 1⟩ (pre.map RowRead.ok)).1 =
        ⟨(processRows env header.length ⟨⟨false, 1, 0⟩, 1⟩ (pre.map RowRead.ok)).1.writer,
          1 + pre.length⟩ := by
      have := processRows_rowCount env header.length ⟨⟨false, 1, 0⟩, 1⟩ (pre.map RowRead.ok)
      rw [readable_map_ok] at this
      rw [← this]
    rw [hst]
    simp only [List.mem_cons, List.mem_append]
    exact Or.inr (Or.inl hmem)

/-- A run that ends through `log.Fatalf` never closes the workbook or
the output file: the deferred functions do not run. -/
theorem fatal_exit_runs_no_deferred (env : Env) (h : (main env).exit = Exit.fatal) :
    Event.closeWorkbook ∉ (main env).trace ∧ Event.closeOutput ∉ (main env).trace := by
  have key : ∀ e, (e = Event.closeWorkbook ∨ e = Event.closeOutput) → e ∉ (main env).trace := by
    intro e hes hm
    have hne : e ≠ Event.readingStdin ∧ e ≠ Event.fatalOpen ∧ e ≠ Event.openWorkbook ∧
        e.inLoop = false ∧ e.isFatal = false ∧ (∀ s, e ≠ Event.openOutput s) ∧
        (∀ s, e ≠ Event.openRows s) ∧ (∀ s i a b, e ≠ Event.converting s i a b) ∧
        (∀ s, e ≠ Event.warnEmpty s) ∧ e ≠ Event.closeRows ∧ e ≠ Event.logCloseRowsError ∧
        (∀ n, e ≠ Event.complete n) ∧ e ≠ Event.usage := by
      rcases hes with hes | hes <;> subst e <;> simp [Event.inLoop, Event.isFatal]
    obtain ⟨n1, n2, n3, n4, n5, n6, n7, n8, n9, n10, n11, n12, n13⟩ := hne
    unfold main at h hm
    split at hm
    next inputFile hargs =>
      simp only [hargs] at h
      cases hopen : env.openInput with
      | none =>
        simp only [hopen, List.mem_append, List.mem_singleton] at hm
        rcases hm with hm | hm
        · exact n1 (opening_mem _ _ hm)
        · exact n2 hm
      | some wb =>
        simp only [hopen, withDefer_exit] at h hm
        rw [withDefer_trace_fatal _ _ h] at hm
        unfold withOutput at h hm
        split_ifs at h hm with hc
        · simp only [List.mem_append, List.mem_cons, List.mem_singleton, List.not_mem_nil,
            or_false] at hm
          rcases hm with hm | hm | hm
          · exact n1 (opening_mem _ _ hm)
          · exact n3 hm
          · rw [hm] at n5
            simp [Event.isFatal] at n5
        · simp only [withDefer_exit] at h
          simp only [withDefer_trace_fatal _ _ h, List.mem_append, List.mem_cons] at hm
          rcases hm with hm | hm | hm | hm
          · exact n1 (opening_mem _ _ hm)
          · exact n3 hm
          · exact n6 _ hm
          · by_cases hb : env.sheetIndex < 0 ∨ env.sheetIndex ≥ (wb.sheetList.length : Int)
            · rw [convert_out_of_bounds env wb inputFile _ hb] at hm
              simp only [List.mem_singleton] at hm
              rw [hm] at n5
              simp [Event.isFatal] at n5
            · have hlt : env.sheetIndex.toNat < wb.sheetList.length := by omega
              have hmem := convert_mem env wb inputFile _ _ hb (List.getElem?_eq_getElem hlt) e hm
              rcases hmem with c | c | c | c | c | c | c | c | c | c | ⟨n, c⟩
              · rw [c] at n4
                cases n4
              · exact n7 _ c
              · rw [c] at n5
                simp [Event.isFatal] at n5
              · exact n8 _ _ _ _ c
              · exact n9 _ c
              · rw [c] at n5
                simp [Event.isFatal] at n5
              · rw [c] at n5
                simp [Event.isFatal] at n5
              · exact n10 c
              · exact n11 c
              · rw [c] at n5
                simp [Event.isFatal] at n5
              · exact n12 n c
    next hargs =>
      simp only [List.mem_singleton] at hm
      exact n13 hm
  exact ⟨key _ (Or.inl rfl), key _ (Or.inr rfl)⟩

/-! ## The claims -/

/-- C1: in a run that reads the header `header` of the selected sheet,
whatever rows follow it, every record handed to the CSV writer (the
header record included) has exactly `columnCount` fields, the number of
fields of the header. -/
theorem every_record_has_columnCount_fields (env : Env) (inputFile : String) (wb : Workbook)
    (sheetName : String) (header : List String) (rest : List RowRead)
    (h : Reaches env inputFile wb sheetName (RowRead.ok header :: rest)) :
    ∀ record ∈ records (main env).trace, record.length = header.length := by
  intro record hrec
  rw [records_main_of_reaches env inputFile wb sheetName _ h] at hrec
  cases hw : env.writeFails 0 with
  | true =>
    rw [records_convertRows_failed env sheetName inputFile _ header rest hw] at hrec
    simp only [List.mem_singleton] at hrec
    rw [hrec]
  | false =>
    rw [records_convertRows_ok env sheetName inputFile _ header rest hw] at hrec
    rcases List.mem_cons.mp hrec with h1 | h1
    · rw [h1]
    · obtain ⟨row, _, hrow⟩ := List.mem_map.mp h1
      rw [← hrow, norm_length]

/-- Witness of C1: a header of two fields followed by a short row, an
unreadable row, a long row and an empty row. -/
theorem every_record_has_columnCount_fields_witness :
    Reaches (sampleEnv [RowRead.ok ["id", "name"], RowRead.ok ["1"], RowRead.err,
        RowRead.ok ["2", "b", "extra"], RowRead.ok []])
      "report.xlsx"
      (sampleWorkbook [RowRead.ok ["id", "name"], RowRead.ok ["1"], RowRead.err,
        RowRead.ok ["2", "b", "extra"], RowRead.ok []])
      "Sheet1"
      (RowRead.ok ["id", "name"] :: [RowRead.ok ["1"], RowRead.err,
        RowRead.ok ["2", "b", "extra"], RowRead.ok []]) ∧
    ∀ record ∈ records (main (sampleEnv [RowRead.ok ["id", "name"], RowRead.ok ["1"],
        RowRead.err, RowRead.ok ["2", "b", "extra"], RowRead.ok []])).trace,
      record.length = ["id", "name"].length :=
  ⟨sampleEnv_reaches _,
    every_record_has_columnCount_fields _ "report.xlsx" _ "Sheet1" ["id", "name"] _
      (sampleEnv_reaches _)⟩

/-- C2: in a run whose header write succeeds, a data row of length `n`
strictly less than `columnCount` is written as the original row followed
by exactly `columnCount - n` empty strings: the record handed to the
writer for it (after the header and one record per readable earlier row)
has the fields of the row first, in order, only empty strings after
them, and length `columnCount`. -/
theorem short_row_is_padded (env : Env) (inputFile : String) (wb : Workbook)
    (sheetName : String) (header : List String) (pre : List RowRead) (row : List String)
    (post : List RowRead)
    (h : Reaches env inputFile wb sheetName
      (RowRead.ok header :: (pre ++ RowRead.ok row :: post)))
    (hw : env.writeFails 0 = false) (hn : row.length < header.length) :
    ∃ record, (records (main env).trace)[(readable pre).length + 1]? = some record ∧
      record = row ++ List.replicate (header.length - row.length) "" ∧
      record.length = header.length ∧
      record.take row.length = row ∧
      (∀ i, row.length ≤ i → i < header.length → record[i]? = some "") := by
  refine ⟨row ++ List.replicate (header.length - row.length) "", ?_, rfl, ?_, ?_, ?_⟩
  · rw [records_main_of_reaches env inputFile wb sheetName _ h,
      records_convertRows_ok env sheetName inputFile _ header _ hw, readable_append]
    have hlen : ((readable pre).map (norm header.length)).length = (readable pre).length :=
      List.length_map _ _
    rw [List.getElem?_cons_succ, List.map_append, List.getElem?_append_right (by omega), hlen,
      Nat.sub_self]
    simp only [readable, List.map_cons, List.getElem?_cons_zero]
    rw [norm_of_short _ _ hn]
  · rw [List.length_append, List.length_replicate]
    omega
  · rw [List.take_left]
  · intro i h1 h2
    rw [List.getElem?_append_right h1, List.getElem?_replicate]
    have : i - row.length < header.length - row.length := by omega
    simp [this]

/-- Witness of C2: a header of three fields, then a readable and an
unreadable row, then the row `["7"]`, which is padded to `["7", "", ""]`. -/
theorem short_row_is_padded_witness :
    ∃ record,
      (records (main (sampleEnv (RowRead.ok ["a", "b", "c"] ::
        ([RowRead.ok ["1", "2", "3"], RowRead.err] ++ RowRead.ok ["7"] :: [])))).trace)[
          (readable [RowRead.ok ["1", "2", "3"], RowRead.err]).length + 1]? = some record ∧
      record = ["7"] ++ List.replicate (["a", "b", "c"].length - ["7"].length) "" ∧
      record.length = ["a", "b", "c"].length ∧
      record.take ["7"].length = ["7"] ∧
      (∀ i, ["7"].length ≤ i → i < ["a", "b", "c"].length → record[i]? = some "") :=
  short_row_is_padded _ "report.xlsx" _ "Sheet1" ["a", "b", "c"]
    [RowRead.ok ["1", "2", "3"], RowRead.err] ["7"] [] (sampleEnv_reaches _) rfl (by decide)

theorem fullOutputEnv_reaches (rest : List RowRead) :
    Reaches (fullOutputEnv rest) "report.xlsx"
      (sampleWorkbook (RowRead.ok longHeader :: rest)) "Sheet1"
      (RowRead.ok longHeader :: rest) :=
  ⟨rfl, rfl, Or.inr rfl, Int.le_refl 0, rfl, by simp [sampleWorkbook]⟩

theorem convertRows_of_header_write_failure (env : Env) (sheetName inputFile out : String)
    (header : List String) (rest : List RowRead) (hw : env.writeFails 0 = true) :
    convertRows env sheetName inputFile out (RowRead.ok header :: rest) =
      ⟨[Event.openRows sheetName, Event.converting sheetName env.sheetIndex inputFile out] ++
          [Event.next true, Event.write header, Event.fatalHeaderWrite],
        Exit.fatal⟩ := by
  simp only [convertRows, csvWrite_newWriter, hw, if_true]

/-- C10, as stated, fails.  The header is one cell of 5000 bytes, more
than the 4096 bytes the writer buffers, so the write of the header
reaches the output stream; on a stream that rejects the bytes (a full
device) that write returns an error and the run ends at line 128.  For
this header and the single readable data row `["1"]` the only record
handed to the writer is the header, not the header followed by the
normalized row. -/
theorem header_write_failure_drops_rows :
    csvBufferSize < longField.length ∧
      Reaches (fullOutputEnv ([["1"]].map RowRead.ok)) "report.xlsx"
        (sampleWorkbook (RowRead.ok longHeader :: [["1"]].map RowRead.ok)) "Sheet1"
        (RowRead.ok longHeader :: [["1"]].map RowRead.ok) ∧
      records (main (fullOutputEnv ([["1"]].map RowRead.ok))).trace = [longHeader] ∧
      records (main (fullOutputEnv ([["1"]].map RowRead.ok))).trace ≠
        longHeader :: [["1"]].map (norm longHeader.length) ∧
      (main (fullOutputEnv ([["1"]].map RowRead.ok))).exit = Exit.fatal := by
  have hreach := fullOutputEnv_reaches ([["1"]].map RowRead.ok)
  have hfail : (fullOutputEnv ([["1"]].map RowRead.ok)).writeFails 0 = true := rfl
  have hrec : records (main (fullOutputEnv ([["1"]].map RowRead.ok))).trace = [longHeader] := by
    rw [records_main_of_reaches _ _ _ _ _ hreach,
      records_convertRows_failed _ _ _ _ _ _ hfail]
  refine ⟨?_, hreach, hrec, ?_, ?_⟩
  · show 4096 < (List.replicate 5000 'a').length
    rw [List.length_replicate]
    omega
  · rw [hrec]
    intro hc
    have hlen := congrArg List.length hc
    simp at hlen
  · rw [main_of_reaches _ _ _ _ _ hreach,
      convertRows_of_header_write_failure _ _ _ _ _ _ hfail]

/-- C10, amended: for every sheet with header `h` and data rows
`r1..rn` that all read successfully, provided the write of the header
does not fail, the sequence of records handed to the writer is exactly
`[h, norm(r1), ..., norm(rn)]` in sheet order, where `norm(r)` is the
first `len(h)` fields of `r` followed by `len(h)` empty strings; a row
whose length already equals `len(h)` is written unchanged. -/
theorem records_are_header_then_normalized_rows (env : Env) (inputFile : String)
    (wb : Workbook) (sheetName : String) (header : List String) (rs : List (List String))
    (h : Reaches env inputFile wb sheetName (RowRead.ok header :: rs.map RowRead.ok))
    (hw : env.writeFails 0 = false) :
    records (main env).trace = header :: rs.map (norm header.length) ∧
      (∀ r, r.length = header.length → norm header.length r = r) := by
  refine ⟨?_, fun r hr => norm_of_eq _ _ hr⟩
  rw [records_main_of_reaches env inputFile wb sheetName _ h,
    records_convertRows_ok env sheetName inputFile _ header _ hw, readable_map_ok]

/-- Witness of amended C10: a header of two fields and three readable rows. -/
theorem records_are_header_then_normalized_rows_witness :
    records (main (sampleEnv (RowRead.ok ["id", "name"] ::
        [["1"], ["2", "b", "extra"], ["3", "c"]].map RowRead.ok))).trace =
      [["id", "name"], ["1", ""], ["2", "b"], ["3", "c"]] :=
  (records_are_header_then_normalized_rows _ "report.xlsx" _ "Sheet1" ["id", "name"]
    [["1"], ["2", "b", "extra"], ["3", "c"]] (sampleEnv_reaches _) rfl).1

/-- C6: if the selected sheet yields no rows (the first call of `Next`
reports no row), the run hands no record to the writer, emits the
empty-sheet warning and returns from `main` without any fatal
termination; the trace is given in full. -/
theorem empty_sheet_ends_quietly (env : Env) (inputFile : String) (wb : Workbook)
    (sheetName : String) (h : Reaches env inputFile wb sheetName []) :
    (main env).trace =
        opening inputFile ++
          [Event.openWorkbook, Event.openOutput (actualOutputFile env.outputFile inputFile),
            Event.openRows sheetName,
            Event.converting sheetName env.sheetIndex inputFile
              (actualOutputFile env.outputFile inputFile),
            Event.next false, Event.warnEmpty sheetName] ++
          deferredOutput env (actualOutputFile env.outputFile inputFile) ++
          deferredWorkbook wb ∧
      (main env).exit = Exit.returned ∧
      records (main env).trace = [] ∧
      Event.warnEmpty sheetName ∈ (main env).trace ∧
      (∀ e ∈ (main env).trace, e.isFatal = false) := by
  have htrace : (main env).trace =
      opening inputFile ++
        [Event.openWorkbook, Event.openOutput (actualOutputFile env.outputFile inputFile),
          Event.openRows sheetName,
          Event.converting sheetName env.sheetIndex inputFile
            (actualOutputFile env.outputFile inputFile),
          Event.next false, Event.warnEmpty sheetName] ++
        deferredOutput env (actualOutputFile env.outputFile inputFile) ++
        deferredWorkbook wb := by
    rw [main_of_reaches env inputFile wb sheetName [] h]
    simp [convertRows, epilogue]
  refine ⟨htrace, ?_, ?_, ?_, ?_⟩
  · rw [main_of_reaches env inputFile wb sheetName [] h]
    rfl
  · rw [records_main_of_reaches env inputFile wb sheetName [] h]
    rfl
  · rw [htrace]
    simp
  · intro e he
    rw [htrace] at he
    simp only [List.mem_append, List.mem_cons, List.mem_singleton, List.not_mem_nil,
      or_false] at he
    rcases he with ((he | he) | he) | he
    · rw [opening_mem _ _ he]
      rfl
    · casesm* _ ∨ _ <;> (subst e; rfl)
    · unfold deferredOutput at he
      split_ifs at he <;> simp at he <;>
        first
          | (subst e; rfl)
          | (casesm* _ ∨ _ <;> (subst e; rfl))
    · unfold deferredWorkbook at he
      split_ifs at he <;> simp at he <;>
        first
          | (subst e; rfl)
          | (casesm* _ ∨ _ <;> (subst e; rfl))

/-- Witness of C6: the sample run on a sheet without rows. -/
theorem empty_sheet_ends_quietly_witness :
    (main (sampleEnv [])).exit = Exit.returned ∧ records (main (sampleEnv [])).trace = [] ∧
      Event.warnEmpty "Sheet1" ∈ (main (sampleEnv [])).trace :=
  ⟨(empty_sheet_ends_quietly (sampleEnv []) "report.xlsx" (sampleWorkbook []) "Sheet1"
      (sampleEnv_reaches [])).2.1,
    (empty_sheet_ends_quietly (sampleEnv []) "report.xlsx" (sampleWorkbook []) "Sheet1"
      (sampleEnv_reaches [])).2.2.1,
    (empty_sheet_ends_quietly (sampleEnv []) "report.xlsx" (sampleWorkbook []) "Sheet1"
      (sampleEnv_reaches [])).2.2.2.1⟩

/-- C4: in a run that gets to the sheet selection (one positional
argument, the workbook opens, the output stream is created), for every
sheet count and every integer sheet index the out-of-bounds fatal message
is emitted if and only if the index is negative or at least the sheet
count.  When it is, the run ends fatally right there: no row iterator
was opened, `Next` was never called and no record was written.  When it
is not, the sheet whose rows are requested is the one at position
`sheet-index` of the sheet list, and indexing the list does not panic. -/
theorem sheet_index_is_checked (env : Env) (inputFile : String) (wb : Workbook)
    (hargs : env.args = [inputFile]) (hopen : env.openInput = some wb)
    (hout : actualOutputFile env.outputFile inputFile = "-" ∨ env.createFails = false) :
    ((∃ i c l, Event.fatalSheetIndex i c l ∈ (main env).trace) ↔
        (env.sheetIndex < 0 ∨ env.sheetIndex ≥ (wb.sheetList.length : Int))) ∧
      ((env.sheetIndex < 0 ∨ env.sheetIndex ≥ (wb.sheetList.length : Int)) →
        (main env).exit = Exit.fatal ∧
        (main env).trace =
          opening inputFile ++
            [Event.openWorkbook, Event.openOutput (actualOutputFile env.outputFile inputFile),
              Event.fatalSheetIndex env.sheetIndex wb.sheetList.length
                (wb.sheetList.length - 1)] ∧
        records (main env).trace = [] ∧
        (∀ b, Event.next b ∉ (main env).trace) ∧
        (∀ s, Event.openRows s ∉ (main env).trace)) ∧
      (¬ (env.sheetIndex < 0 ∨ env.sheetIndex ≥ (wb.sheetList.length : Int)) →
        ∃ sheetName, wb.sheetList[env.sheetIndex.toNat]? = some sheetName ∧
          (Event.openRows sheetName ∈ (main env).trace ∨
            Event.fatalRows sheetName ∈ (main env).trace) ∧
          (∀ s, Event.openRows s ∈ (main env).trace ∨ Event.fatalRows s ∈ (main env).trace →
            s = sheetName) ∧
          (main env).exit ≠ Exit.panic) := by
  have hrun := main_of_output env inputFile wb hargs hopen hout
  have hoob : (env.sheetIndex < 0 ∨ env.sheetIndex ≥ (wb.sheetList.length : Int)) →
      (main env).exit = Exit.fatal ∧
      (main env).trace =
        opening inputFile ++
          [Event.openWorkbook, Event.openOutput (actualOutputFile env.outputFile inputFile),
            Event.fatalSheetIndex env.sheetIndex wb.sheetList.length
              (wb.sheetList.length - 1)] := by
    intro hb
    rw [hrun, convert_out_of_bounds env wb inputFile _ hb]
    simp [epilogue]
  have hin : ¬ (env.sheetIndex < 0 ∨ env.sheetIndex ≥ (wb.sheetList.length : Int)) →
      ∃ sheetName, wb.sheetList[env.sheetIndex.toNat]? = some sheetName ∧
        (∀ e ∈ (main env).trace, e = Event.readingStdin ∨ e = Event.openWorkbook ∨
          e = Event.openOutput (actualOutputFile env.outputFile inputFile) ∨
          e ∈ (convert env wb inputFile (actualOutputFile env.outputFile inputFile)).trace ∨
          e ∈ epilogue env wb (actualOutputFile env.outputFile inputFile)
            (convert env wb inputFile (actualOutputFile env.outputFile inputFile))) ∧
        (∀ e ∈ (convert env wb inputFile (actualOutputFile env.outputFile inputFile)).trace,
          e ∈ (main env).trace) := by
    intro hb
    have hlt : env.sheetIndex.toNat < wb.sheetList.length := by omega
    refine ⟨wb.sheetList[env.sheetIndex.toNat], List.getElem?_eq_getElem hlt, ?_, ?_⟩
    · intro e he
      rw [hrun] at he
      simp only [List.mem_append, List.mem_cons] at he
      rcases he with he | he | he | he | he
      · exact Or.inl (opening_mem _ _ he)
      · exact Or.inr (Or.inl he)
      · exact Or.inr (Or.inr (Or.inl he))
      · exact Or.inr (Or.inr (Or.inr (Or.inl he)))
      · exact Or.inr (Or.inr (Or.inr (Or.inr he)))
    · intro e he
      rw [hrun]
      simp only [List.mem_append, List.mem_cons]
      exact Or.inr (Or.inr (Or.inr (Or.inl he)))
  refine ⟨⟨?_, ?_⟩, ?_, ?_⟩
  · rintro ⟨i, c, l, hm⟩
    by_contra hb
    obtain ⟨sheetName, hget, hall, _⟩ := hin hb
    rcases hall _ hm with he | he | he | he | he
    · cases he
    · cases he
    · cases he
    · have := convert_mem env wb inputFile _ sheetName hb hget _ he
      simp [Event.inLoop] at this
    · have := epilogue_mem _ _ _ _ _ he
      simp at this
  · intro hb
    refine ⟨env.sheetIndex, wb.sheetList.length, (wb.sheetList.length : Int) - 1, ?_⟩
    rw [(hoob hb).2]
    simp
  · intro hb
    obtain ⟨hexit, htrace⟩ := hoob hb
    refine ⟨hexit, htrace, ?_, ?_, ?_⟩
    · rw [htrace, records_append, records_opening]
      rfl
    · intro b hm
      rw [htrace] at hm
      simp only [List.mem_append, List.mem_cons, List.mem_singleton, List.not_mem_nil,
        or_false] at hm
      rcases hm with hm | hm | hm | hm
      · cases opening_mem _ _ hm
      · cases hm
      · cases hm
      · cases hm
    · intro s hm
      rw [htrace] at hm
      simp only [List.mem_append, List.mem_cons, List.mem_singleton, List.not_mem_nil,
        or_false] at hm
      rcases hm with hm | hm | hm | hm
      · cases opening_mem _ _ hm
      · cases hm
      · cases hm
      · cases hm
  · intro hb
    obtain ⟨sheetName, hget, hall, hsub⟩ := hin hb
    obtain ⟨hsel, hpanic⟩ := convert_selects env wb inputFile
      (actualOutputFile env.outputFile inputFile) sheetName hb hget
    refine ⟨sheetName, hget, ?_, ?_, ?_⟩
    · rcases hsel with hs | hs
      · exact Or.inl (hsub _ hs)
      · exact Or.inr (hsub _ hs)
    · intro s hs
      have key : ∀ e, (e = Event.openRows s ∨ e = Event.fatalRows s) →
          e ∈ (main env).trace → s = sheetName := by
        intro e hes hm
        rcases hall _ hm with he | he | he | he | he
        · rcases hes with h1 | h1 <;> rw [h1] at he <;> cases he
        · rcases hes with h1 | h1 <;> rw [h1] at he <;> cases he
        · rcases hes with h1 | h1 <;> rw [h1] at he <;> cases he
        · have := convert_mem env wb inputFile _ sheetName hb hget _ he
          rcases hes with h1 | h1 <;> rw [h1] at this <;> simp [Event.inLoop] at this <;>
            exact this
        · have := epilogue_mem _ _ _ _ _ he
          rcases hes with h1 | h1 <;> rw [h1] at this <;> simp at this
      rcases hs with hs | hs
      · exact key _ (Or.inl rfl) hs
      · exact key _ (Or.inr rfl) hs
    · rw [hrun]
      exact hpanic

/-- Witness of C4: on a workbook with one sheet, index 1 and index -1
end the run fatally, index 0 selects the sheet. -/
theorem sheet_index_is_checked_witness :
    (main (sampleEnvAt 1 [])).exit = Exit.fatal ∧
      (main (sampleEnvAt (-1) [])).exit = Exit.fatal ∧
      (∃ i c l, Event.fatalSheetIndex i c l ∈ (main (sampleEnvAt 1 [])).trace) ∧
      ¬ (∃ i c l, Event.fatalSheetIndex i c l ∈ (main (sampleEnvAt 0 [])).trace) :=
  ⟨((sheet_index_is_checked (sampleEnvAt 1 []) "report.xlsx" (sampleWorkbook []) rfl rfl
      (Or.inr rfl)).2.1 (by decide)).1,
    ((sheet_index_is_checked (sampleEnvAt (-1) []) "report.xlsx" (sampleWorkbook []) rfl rfl
      (Or.inr rfl)).2.1 (by decide)).1,
    (sheet_index_is_checked (sampleEnvAt 1 []) "report.xlsx" (sampleWorkbook []) rfl rfl
      (Or.inr rfl)).1.mpr (by decide),
    fun hex => absurd
      ((sheet_index_is_checked (sampleEnvAt 0 []) "report.xlsx" (sampleWorkbook []) rfl rfl
        (Or.inr rfl)).1.mp hex) (by decide)⟩

/-- C9 fails on the code.  With one sheet and `-sheet-index 1` the run
acquires the workbook and the output file and ends at line 97 through
`log.Fatalf`: the deferred functions do not run, so the workbook is not
closed and the output is neither flushed nor closed.  On an empty sheet
`main` returns at line 133: the deferred functions run, but the row
iterator, open since line 101, is never closed. -/
theorem release_is_skipped :
    (main (sampleEnvAt 1 [RowRead.ok ["a"]])).trace =
        [Event.openWorkbook, Event.openOutput "report.csv", Event.fatalSheetIndex 1 1 0] ∧
      (main (sampleEnvAt 1 [RowRead.ok ["a"]])).exit = Exit.fatal ∧
      Event.closeWorkbook ∉ (main (sampleEnvAt 1 [RowRead.ok ["a"]])).trace ∧
      Event.flush ∉ (main (sampleEnvAt 1 [RowRead.ok ["a"]])).trace ∧
      Event.closeOutput ∉ (main (sampleEnvAt 1 [RowRead.ok ["a"]])).trace ∧
      (main (sampleEnv [])).trace =
        [Event.openWorkbook, Event.openOutput "report.csv", Event.openRows "Sheet1",
          Event.converting "Sheet1" 0 "report.xlsx" "report.csv", Event.next false,
          Event.warnEmpty "Sheet1", Event.flush, Event.closeOutput, Event.closeWorkbook] ∧
      (main (sampleEnv [])).exit = Exit.returned ∧
      Event.closeRows ∉ (main (sampleEnv [])).trace := by
  decide

/-- C3 fails on the code.  In the sheet `["a"]`, unreadable row,
`["x", "y"]` the long row is row 3, but the skipped row did not advance
`rowCount`, so the warning of line 150 names row 2. -/
theorem truncation_warning_misnumbers_row :
    [RowRead.ok ["a"], RowRead.err, RowRead.ok ["x", "y"]][3 - 1]? =
        some (RowRead.ok ["x", "y"]) ∧
      (main (sampleEnv [RowRead.ok ["a"], RowRead.err, RowRead.ok ["x", "y"]])).trace =
        [Event.openWorkbook, Event.openOutput "report.csv", Event.openRows "Sheet1",
          Event.converting "Sheet1" 0 "report.xlsx" "report.csv",
          Event.next true, Event.write ["a"],
          Event.next true, Event.logReadError 2,
          Event.next true, Event.warnTruncate 2 2 1, Event.write ["x"],
          Event.next false, Event.closeRows, Event.complete 2,
          Event.flush, Event.closeOutput, Event.closeWorkbook] ∧
      Event.warnTruncate 3 2 1 ∉
        (main (sampleEnv [RowRead.ok ["a"], RowRead.err, RowRead.ok ["x", "y"]])).trace := by
  decide

/-- C7, as stated, fails: the `continue` of line 141 skips `rowCount++`,
so a row whose read fails leaves the row counter unchanged.  In the
sheet `["a"]`, unreadable row, `["b"]` the final count is 2, not 3. -/
theorem read_failure_keeps_rowCount :
    ¬ (∀ (env : Env) (columnCount : Nat) (st : LoopState),
        (processRow env columnCount st RowRead.err).1.rowCount = st.rowCount + 1) ∧
      Event.complete 2 ∈
        (main (sampleEnv [RowRead.ok ["a"], RowRead.err, RowRead.ok ["b"]])).trace ∧
      Event.complete 3 ∉
        (main (sampleEnv [RowRead.ok ["a"], RowRead.err, RowRead.ok ["b"]])).trace :=
  ⟨fun hall => absurd (hall (sampleEnv []) 1 ⟨newWriter, 1⟩) (by decide), by decide, by decide⟩

/-- C7, amended: for a data row whose read fails, the run logs one
error (naming the row's number in the sheet when every earlier row was
read), hands no record to the writer for it and continues with the next
row from the same loop state: the row counter is not incremented for
that row, so when no write fails the final count is the number of
records written and does not count the skipped row. -/
theorem unreadable_row_is_skipped (env : Env) (inputFile : String) (wb : Workbook)
    (sheetName : String) (header : List String) (pre : List (List String))
    (post : List RowRead)
    (h : Reaches env inputFile wb sheetName
      (RowRead.ok header :: (pre.map RowRead.ok ++ RowRead.err :: post)))
    (hw : env.writeFails 0 = false) :
    Event.logReadError (pre.length + 2) ∈ (main env).trace ∧
      records (main env).trace = header :: (pre ++ readable post).map (norm header.length) ∧
      (∀ columnCount st rest,
        processRows env columnCount st (RowRead.err :: rest) =
          ((processRows env columnCount st rest).1,
            Event.next true :: Event.logReadError (st.rowCount + 1) ::
              (processRows env columnCount st rest).2)) ∧
      ((∀ k, env.writeFails k = false) → (∀ k, env.flushFails k = false) →
        (main env).exit = Exit.returned ∧
        Event.complete (records (main env).trace).length ∈ (main env).trace ∧
        (records (main env).trace).length = 1 + pre.length + (readable post).length) := by
  have hrec : records (main env).trace =
      header :: (pre ++ readable post).map (norm header.length) := by
    rw [records_main_of_reaches env inputFile wb sheetName _ h,
      records_convertRows_ok env sheetName inputFile _ header _ hw, readable_append,
      readable_map_ok]
    rfl
  refine ⟨?_, hrec, fun _ _ _ => rfl, ?_⟩
  · apply convertRows_subset_main env inputFile wb sheetName _ h
    apply loop_subset_convertRows env sheetName inputFile _ header _ hw
    apply processRows_append_mem
    rw [processRows_cons, processRow_err, processRows_rowCount, readable_map_ok]
    have : 1 + pre.length + 1 = pre.length + 2 := by omega
    simp [this]
  · intro hwall hfall
    have hlen : (records (main env).trace).length = 1 + pre.length + (readable post).length := by
      rw [hrec]
      simp only [List.length_cons, List.length_map, List.length_append]
      omega
    refine ⟨?_, ?_, hlen⟩
    · rw [main_of_reaches env inputFile wb sheetName _ h,
        convertRows_of_no_failure env sheetName inputFile _ header _ hwall hfall]
    · apply convertRows_subset_main env inputFile wb sheetName _ h
      rw [convertRows_of_no_failure env sheetName inputFile _ header _ hwall hfall, hlen,
        readable_append, readable_map_ok]
      simp only [List.mem_append, List.mem_singleton, List.length_append, readable,
        List.length_cons]
      right
      congr 1
      omega

/-- Witness of amended C7: header, two readable rows, an unreadable row
(row 4), a readable row.  The error names row 4 and the final count is 4. -/
theorem unreadable_row_is_skipped_witness :
    Event.logReadError 4 ∈
        (main (sampleEnv (RowRead.ok ["a"] ::
          ([["1"], ["2"]].map RowRead.ok ++ RowRead.err :: [RowRead.ok ["3"]])))).trace ∧
      records (main (sampleEnv (RowRead.ok ["a"] ::
          ([["1"], ["2"]].map RowRead.ok ++ RowRead.err :: [RowRead.ok ["3"]])))).trace =
        [["a"], ["1"], ["2"], ["3"]] ∧
      (records (main (sampleEnv (RowRead.ok ["a"] ::
          ([["1"], ["2"]].map RowRead.ok ++ RowRead.err :: [RowRead.ok ["3"]])))).trace).length
        = 4 :=
  ⟨(unreadable_row_is_skipped _ "report.xlsx" _ "Sheet1" ["a"] [["1"], ["2"]]
      [RowRead.ok ["3"]] (sampleEnv_reaches _) rfl).1,
    (unreadable_row_is_skipped _ "report.xlsx" _ "Sheet1" ["a"] [["1"], ["2"]]
      [RowRead.ok ["3"]] (sampleEnv_reaches _) rfl).2.1,
    ((unreadable_row_is_skipped _ "report.xlsx" _ "Sheet1" ["a"] [["1"], ["2"]]
      [RowRead.ok ["3"]] (sampleEnv_reaches _) rfl).2.2.2 (fun _ => rfl) (fun _ => rfl)).2.2⟩

/-- C5, as stated, fails: the derived name is built from
`filepath.Base(inputFile)`, so the directory of the input is dropped.
For input `dir/report.xlsx` without `-o` the output path is `report.csv`,
not the input path with its extension replaced, `dir/report.csv`. -/
theorem derived_output_drops_directory :
    ¬ (∀ outputFile inputFile : String,
        (outputFile ≠ "" → actualOutputFile outputFile inputFile = outputFile) ∧
        (outputFile = "" → inputFile = "-" → actualOutputFile outputFile inputFile = "-") ∧
        (outputFile = "" → inputFile ≠ "-" →
          actualOutputFile outputFile inputFile = specReplaceExt inputFile)) ∧
      actualOutputFile "" "dir/report.xlsx" = "report.csv" ∧
      specReplaceExt "dir/report.xlsx" = "dir/report.csv" :=
  ⟨fun hall => absurd ((hall "" "dir/report.xlsx").2.2 rfl (by decide)) (by decide),
    by decide, by decide⟩

/-- C5, amended: if `-o` is given (non-empty) the output path is that
value verbatim, including `-`; otherwise, if the input is `-` the output
is `-` (standard output); otherwise the output path is the last element
of the input path (`filepath.Base`) with its extension replaced by
`.csv`, a file name without directory.  So an input `dir/stem.ext`, with
or without the directory part, yields `stem.csv`, and an input whose
last element `name` has no dot yields `name.csv`. -/
theorem output_path_resolution (outputFile inputFile : String) :
    (outputFile ≠ "" → actualOutputFile outputFile inputFile = outputFile) ∧
      (outputFile = "" → inputFile = "-" → actualOutputFile outputFile inputFile = "-") ∧
      (outputFile = "" → inputFile ≠ "-" →
        actualOutputFile outputFile inputFile = specReplaceExt (filepathBase inputFile)) ∧
      (∀ dir stem ext : String, outputFile = "" → inputFile = dir ++ (stem ++ "." ++ ext) →
        inputFile ≠ "-" → (dir = "" ∨ ∃ d : String, dir = d ++ "/") →
        (∀ c ∈ stem.data, ¬ c = '/') → (∀ c ∈ ext.data, ¬ c = '/' ∧ ¬ c = '.') →
        actualOutputFile outputFile inputFile = stem ++ ".csv") ∧
      (∀ dir name : String, outputFile = "" → inputFile = dir ++ name →
        inputFile ≠ "-" → name ≠ "" → (dir = "" ∨ ∃ d : String, dir = d ++ "/") →
        (∀ c ∈ name.data, ¬ c = '/' ∧ ¬ c = '.') →
        actualOutputFile outputFile inputFile = name ++ ".csv") := by
  have h3 : outputFile = "" → inputFile ≠ "-" →
      actualOutputFile outputFile inputFile = specReplaceExt (filepathBase inputFile) := by
    intro ho hi
    unfold actualOutputFile
    rw [if_pos ⟨ho, hi⟩]
    rfl
  refine ⟨?_, ?_, h3, ?_, ?_⟩
  · intro ho
    unfold actualOutputFile
    rw [if_neg (fun hc => ho hc.1), if_neg (fun hc => ho hc.1)]
  · intro ho hi
    unfold actualOutputFile
    rw [if_neg (fun hc => hc.2 hi), if_pos ⟨ho, hi⟩]
  · intro dir stem ext ho hin hi hd hs he
    have hne : stem ++ "." ++ ext ≠ "" := by
      intro hc
      have := congrArg String.data hc
      simp [String.data_append] at this
    have hname : ∀ c ∈ (stem ++ "." ++ ext).data, ¬ c = '/' := by
      intro c hc
      simp only [String.data_append, List.mem_append] at hc
      rcases hc with (hc | hc) | hc
      · exact hs c hc
      · have : c = '.' := by simpa using hc
        rw [this]
        decide
      · exact (he c hc).1
    rw [h3 ho hi, hin, filepathBase_append dir _ hne hname hd, specReplaceExt_of_ext stem ext he]
  · intro dir name ho hin hi hne hd hn
    rw [h3 ho hi, hin, filepathBase_append dir name hne (fun c hc => (hn c hc).1) hd,
      specReplaceExt_of_no_dot name (fun c hc => (hn c hc).2)]

/-- Witness of amended C5: `report.xlsx` and `dir/report.xlsx` both give
`report.csv`, `data/table` gives `table.csv`, an explicit `-o` is kept. -/
theorem output_path_resolution_witness :
    actualOutputFile "" "report.xlsx" = "report.csv" ∧
      actualOutputFile "" "dir/report.xlsx" = "report.csv" ∧
      actualOutputFile "" "data/table" = "table.csv" ∧
      actualOutputFile "-" "report.xlsx" = "-" ∧
      actualOutputFile "" "-" = "-" :=
  ⟨(output_path_resolution "" "report.xlsx").2.2.2.1 "" "report" "xlsx" rfl (by decide)
      (by decide) (Or.inl rfl) (by decide) (by decide),
    (output_path_resolution "" "dir/report.xlsx").2.2.2.1 "dir/" "report" "xlsx" rfl
      (by decide) (by decide) (Or.inr ⟨"dir", by decide⟩) (by decide) (by decide),
    (output_path_resolution "" "data/table").2.2.2.2 "data/" "table" rfl (by decide)
      (by decide) (by decide) (Or.inr ⟨"data", by decide⟩) (by decide),
    (output_path_resolution "-" "report.xlsx").1 (by decide),
    (output_path_resolution "" "-").2.1 rfl rfl⟩

/-- C8: for a sheet with a header and `n` data rows that all read and
write successfully (no `Write` and no `Flush` fails), the run writes
`n + 1` records; the progress messages are exactly those for the
multiples `N` of `progressReportInterval` (1000) among the counts
`1 .. n + 1` of records written, in order; every progress message `N`
stands in the trace right after the `N`-th write and right before a
flush, and every write that brings the count to a multiple of 1000 is
followed at once by the progress message and the flush; the final
summary reports `n + 1`.  With 1500 data rows: 1501 records, the single
progress message `N = 1000`, and the final count 1501. -/
theorem progress_every_interval (env : Env) (inputFile : String) (wb : Workbook)
    (sheetName : String) (header : List String) (rs : List (List String))
    (h : Reaches env inputFile wb sheetName (RowRead.ok header :: rs.map RowRead.ok))
    (hw : ∀ k, env.writeFails k = false) (hf : ∀ k, env.flushFails k = false) :
    (records (main env).trace).length = rs.length + 1 ∧
      progresses (main env).trace =
        (List.range' 1 (rs.length + 1)).filter
          (fun n => decide (n % progressReportInterval = 0)) ∧
      (∀ pre post n, (main env).trace = pre ++ Event.progress n :: post →
        n = (records pre).length ∧ 0 < n ∧ n % progressReportInterval = 0 ∧
          ∃ post2, post = Event.flush :: post2) ∧
      (∀ pre post r, (main env).trace = pre ++ Event.write r :: post →
        ((records pre).length + 1) % progressReportInterval = 0 →
        ∃ post2, post = Event.progress ((records pre).length + 1) :: Event.flush :: post2) ∧
      Event.complete (rs.length + 1) ∈ (main env).trace ∧
      (main env).exit = Exit.returned ∧
      (rs.length = 1500 →
        (records (main env).trace).length = 1501 ∧
        progresses (main env).trace = [1000] ∧
        Event.complete 1501 ∈ (main env).trace) := by
  have hrule := main_follows_rule env inputFile wb sheetName header _ h hw hf
  have hshape := main_trace_of_no_failure env inputFile wb sheetName header _ h hw hf
  have hlen : (records (main env).trace).length = rs.length + 1 := by
    rw [records_main_of_reaches env inputFile wb sheetName _ h,
      records_convertRows_ok env sheetName inputFile _ header _ (hw 0), readable_map_ok]
    simp
  have hprog := progresses_main env inputFile wb sheetName header _ h hw hf
  rw [readable_map_ok] at hprog
  have hcomplete : Event.complete (rs.length + 1) ∈ (main env).trace := by
    rw [hshape.1, readable_map_ok, Nat.add_comm 1 rs.length]
    simp
  refine ⟨hlen, hprog, ?_, ?_, hcomplete, hshape.2, ?_⟩
  · intro pre post n htrace
    rw [htrace] at hrule
    have := followsProgressRule_at_progress _ _ _ _ _ hrule (fun hc => by cases hc)
    rwa [Nat.zero_add] at this
  · intro pre post r htrace hm
    rw [htrace] at hrule
    have := followsProgressRule_at_write Expect.anything 0 pre post r hrule
      (by rwa [Nat.zero_add])
    rwa [Nat.zero_add] at this
  · intro h1500
    rw [h1500] at hlen hprog hcomplete
    exact ⟨hlen, hprog.trans multiples_up_to_1501, hcomplete⟩

/-- Witness of C8: a header of three columns and 1500 data rows. -/
theorem progress_every_interval_witness :
    (records (main (sampleEnv (RowRead.ok ["a", "b", "c"] ::
        (List.replicate 1500 ["1", "2", "3"]).map RowRead.ok))).trace).length = 1501 ∧
      progresses (main (sampleEnv (RowRead.ok ["a", "b", "c"] ::
        (List.replicate 1500 ["1", "2", "3"]).map RowRead.ok))).trace = [1000] ∧
      Event.complete 1501 ∈ (main (sampleEnv (RowRead.ok ["a", "b", "c"] ::
        (List.replicate 1500 ["1", "2", "3"]).map RowRead.ok))).trace :=
  (progress_every_interval _ "report.xlsx" _ "Sheet1" ["a", "b", "c"]
    (List.replicate 1500 ["1", "2", "3"]) (sampleEnv_reaches _) (fun _ => rfl)
    (fun _ => rfl)).2.2.2.2.2.2 (List.length_replicate 1500 _)

end Excel2csv
